import Mathlib

/- Shallow embedding of src/do_backup.py (version 3.6.0).

   Modelling conventions:
   * A Python datetime is an Int counting hours since 0001-01-01 00:00 in the
     proleptic Gregorian calendar; timedelta(days=i) subtracts 24*i hours and
     timedelta(hours=i) subtracts i hours.
   * strftime(dir_format.format(hostname=platform.node()), t) is abstracted as
     an environment parameter Env.strftime; the two built-in templates are in
     addition modelled concretely (strftimeBuiltin) for the injectivity claim.
   * The filesystem seen by the orchestrator maps path strings to entries that
     carry the os.path.isdir and os.access(..., W_OK) information; the
     recursive shutil.rmtree of one snapshot directory is modelled as removal
     of that snapshot path's entry (the permission-repair handler _del_rw is
     modelled separately and in more detail further below).
   * Python exceptions are an explicit error type PyErr. -/

namespace DoBackup

/- Python built-in range(a, b) over integers: the increasing list
   [a, a+1, ..., b-1], empty when b ≤ a. -/
def pyRange (a b : Int) : List Int :=
  if h : a < b then a :: pyRange (a + 1) b else []
termination_by (b - a).toNat
decreasing_by omega

/- A filesystem entry: os.path.isdir bit and os.access(..., W_OK) bit. -/
structure Entry where
  dirFlag : Bool
  wOk : Bool
deriving DecidableEq

/- Orchestrator-level filesystem: path → entry (none = path does not exist). -/
def FSm : Type := String → Option Entry

def pathExists (fs : FSm) (p : String) : Bool := (fs p).isSome

def pathIsDir (fs : FSm) (p : String) : Bool :=
  match fs p with
  | some e => e.dirFlag
  | none => false

def pathWritable (fs : FSm) (p : String) : Bool :=
  match fs p with
  | some e => e.wOk
  | none => false

def fsRemove (fs : FSm) (p : String) : FSm :=
  fun q => if q = p then none else fs q

def fsMkdir (fs : FSm) (p : String) : FSm :=
  fun q => if q = p then some ⟨true, true⟩ else fs q

/- The standard-library functions the script calls on strings.
   strftime fmt t models thatday.strftime(fmt.format(hostname=platform.node()))
   where t is the datetime thatday; normpath models os.path.normpath and
   dirname models os.path.dirname. -/
structure Env where
  strftime : String → Int → String
  normpath : String → String
  dirname : String → String

/- _get_backup_dir_path (src/do_backup.py:157-163): os.path.join of the base
   directory with the strftime-rendered directory name, modelled as
   concatenation with a single "/" separator. -/
def getBackupDirPath (env : Env) (thatday : Int) (base_dir dir_format : String) : String :=
  base_dir ++ "/" ++ env.strftime dir_format thatday

/- today - timedelta(hours=i) respectively today - timedelta(days=i). -/
def thatdayOf (today : Int) (hourly : Bool) (i : Int) : Int :=
  today - (if hourly then i else 24 * i)

/- The rsync invocation handed to subprocess.Popen, kept structurally. -/
structure RsyncCmd where
  rsyncCommand : String
  options : List String
  link : Option String
  included : List String
  excluded : List String
  srcs : List String
  dest : String
deriving DecidableEq

/- Observable actions of one run (log-relevant filesystem and process events). -/
inductive Event where
  | skippedAbsent (p : String)
  | warnedNotDir (p : String)
  | removed (p : String)
  | loggedNotWritable (p : String)
  | mkdirEv (p : String)
  | spawn (c : RsyncCmd)
deriving DecidableEq

/- Python exceptions that the embedded code can raise. -/
inductive PyErr where
  | typeError
  | unboundLocal
  | runtimeError
deriving DecidableEq

/- One iteration of the loop body of _remove_old_backups_if_exist
   (src/do_backup.py:241-258). -/
def removeOldStep (env : Env) (today : Int) (base_dir dir_format : String)
    (hourly : Bool) (acc : FSm × List Event) (i : Int) : FSm × List Event :=
  let fs := acc.1
  let tr := acc.2
  let p := getBackupDirPath env (thatdayOf today hourly i) base_dir dir_format
  if pathExists fs p then
    if pathIsDir fs p then (fsRemove fs p, tr ++ [Event.removed p])
    else (fs, tr ++ [Event.warnedNotDir p])
  else (fs, tr ++ [Event.skippedAbsent p])

/- _remove_old_backups_if_exist (src/do_backup.py:237-258): for i in
   range(first_index, last_index + 1) probe the addressed path and skip /
   warn-skip / recursively delete. -/
def removeOldBackupsIfExist (env : Env) (today : Int) (base_dir dir_format : String)
    (first_index last_index : Int) (hourly : Bool) (fs : FSm) : FSm × List Event :=
  (pyRange first_index (last_index + 1)).foldl
    (removeOldStep env today base_dir dir_format hourly) (fs, [])

/- _find_link_dir (src/do_backup.py:261-276): first offset in
   range(first_index, last_index + 1) whose address is a directory. -/
def findLinkDir (env : Env) (today : Int) (base_dir dir_format : String)
    (first_index last_index : Int) (hourly : Bool) (fs : FSm) : Option String :=
  (pyRange first_index (last_index + 1)).findSome? (fun i =>
    let p := getBackupDirPath env (thatdayOf today hourly i) base_dir dir_format
    if pathIsDir fs p then some p else none)

/- The fields of the argparse namespace consumed by _main_inter and
   _do_actual_backup.  A list default [] models the argparse value None for
   the append-actions (--include / --exclude); the args.include field is
   spelt includeList here because include is a Lean keyword. -/
structure Args where
  src : List String
  base_dir : String
  dir_format : String
  identity_file : Option String
  force_full_backup : Bool
  removal_threshold : Int
  hourly : Bool
  exclude : List String
  exclude_from : Option String
  includeList : List String
  log_rsync_output : Bool
  verbose_rsync : Bool
  src_type : String
  rsync_command : String
deriving DecidableEq

def DEFAULT_DIR_FORMAT : String := "{hostname}-%Y%m%d"
def DEFAULT_DIR_FORMAT_HOURLY : String := "{hostname}-%Y%m%d-%H"
def DEFAULT_REMOVAL_SEARCH_THRESHOLD : Int := 100

/- The module-level default lists _DEFAULT_INCLUDED_DIR and
   _DEFAULT_EXCLUDED_DIR (src/do_backup.py:50-57).  They are module
   state: _main_inter aliases and extends them in place, so they are
   threaded through the embedding explicitly. -/
def defaultIncludedDir : List String := []

def defaultExcludedDir : List String :=
  ["/dev", "/proc", "/sys", "/tmp",
   "/mnt", "/media", "/root", "/run",
   "/lost+found",
   "/var/lock", "/var/tmp", "/var/run",
   "/backup"]

structure Globals where
  includedDefault : List String
  excludedDefault : List String
deriving DecidableEq

def initGlobals : Globals := ⟨defaultIncludedDir, defaultExcludedDir⟩

/- The fixed per-mode base flag sets of _do_actual_backup
   (src/do_backup.py:292-300). -/
def rsyncBaseOptions (src_type : String) : List String :=
  if src_type = "ssh" then ["-irtlz", "--delete", "--no-specials", "--no-devices"]
  else if src_type = "rough" then ["-irtL", "--no-specials", "--no-devices"]
  else ["-iaAHXLu", "--delete", "--no-specials", "--no-devices"]

/- _do_actual_backup (src/do_backup.py:286-350).  The option list is built
   deterministically; a configured but missing identity file raises
   RuntimeError before the process is spawned.  Otherwise subprocess.Popen is
   executed (the spawn event), and then line 334 evaluates
   '(stdout): '.format-style prefixes on args[0], where args is the argparse
   Namespace: a Namespace is not subscriptable, so a TypeError is raised after
   the spawn and the function can never reach `return p.returncode`
   (src/do_backup.py:343), contradicting its own docstring. -/
def doActualBackup (fs : FSm) (src_list : List String) (dest_dir_path : String)
    (link_dir_path : Option String) (included_dirs excluded_dirs : List String)
    (a : Args) : List Event × Except PyErr Int :=
  let opts := rsyncBaseOptions a.src_type
  let opts := if a.verbose_rsync then opts ++ ["--verbose"] else opts
  let opts := match link_dir_path with
    | some p => opts ++ ["--link-dest=" ++ p]
    | none => opts
  let opts := opts ++ included_dirs.map (fun x => "--include " ++ x)
  let opts := opts ++ excluded_dirs.map (fun x => "--exclude " ++ x)
  let opts := match a.exclude_from with
    | some f => opts ++ [f]
    | none => opts
  let finish := fun (opts : List String) =>
    let cmd : RsyncCmd :=
      ⟨a.rsync_command, opts, link_dir_path, included_dirs, excluded_dirs,
       src_list, dest_dir_path⟩
    ([Event.spawn cmd], (Except.error PyErr.typeError : Except PyErr Int))
  match a.identity_file with
  | some f =>
    if pathExists fs f then finish (opts ++ ["-e \"ssh -i " ++ f ++ "\""])
    else ([], Except.error PyErr.runtimeError)
  | none => finish opts

/- The value of one whole run of _main_inter: the module-level default lists
   after the run, the filesystem after the run, the observable events, and
   either the returned boolean or the exception that escaped. -/
structure RunResult where
  globals : Globals
  fs : FSm
  trace : List Event
  result : Except PyErr Bool

/- The directory format actually used by the run: lines 354-364 silently
   switch to the hourly default when --hourly is set and the format is still
   the daily default (the missing-%H check only logs a warning). -/
def mainDirFormat (a : Args) : String :=
  if a.hourly ∧ a.dir_format = DEFAULT_DIR_FORMAT then DEFAULT_DIR_FORMAT_HOURLY
  else a.dir_format

/- Destination-root validation, src/do_backup.py:375-397.  none = the run
   returns False here.  Faithful detail: when the root exists and is a
   directory but is NOT writable, line 381-383 only logs an error (there is
   no return statement), and the run continues. -/
def validateBaseDir (env : Env) (fs : FSm) (a : Args) : Option (FSm × List Event) :=
  let norm := env.normpath a.base_dir
  if pathExists fs norm then
    if pathIsDir fs norm then
      some (fs, if pathWritable fs norm then [] else [Event.loggedNotWritable norm])
    else none
  else
    let parent := env.dirname norm
    if pathExists fs parent ∧ pathIsDir fs parent then
      some (fsMkdir fs a.base_dir, [Event.mkdirEv a.base_dir])
    else none

/- The guarded retention sweep, src/do_backup.py:408-415. -/
def sweepPhase (env : Env) (today : Int) (a : Args) (fs1 : FSm) : FSm × List Event :=
  if a.removal_threshold > 0 then
    removeOldBackupsIfExist env today a.base_dir (mainDirFormat a)
      (a.removal_threshold + 1) DEFAULT_REMOVAL_SEARCH_THRESHOLD a.hourly fs1
  else (fs1, [])

/- Lines 428-433: included_dirs / excluded_dirs alias the module-level
   default lists and extend them in place, so the globals after the run hold
   the user-supplied entries, and the lists handed to the copy runner are
   exactly those mutated globals. -/
def accumulateGlobals (g : Globals) (a : Args) : Globals :=
  ⟨(if a.includeList = [] then g.includedDefault else g.includedDefault ++ a.includeList),
   (if a.exclude = [] then g.excludedDefault else g.excludedDefault ++ a.exclude)⟩

/- Link resolution plus the copy call, src/do_backup.py:416-449.  When
   force_full_backup is set, link_dir_path is never assigned (the else branch
   at line 419 is skipped), so evaluating it at the call on line 436 raises
   UnboundLocalError.  The exit-code policy of lines 445-449 is kept even
   though the TypeError inside _do_actual_backup makes it unreachable. -/
def linkAndCopy (env : Env) (today : Int) (g1 : Globals) (fs2 : FSm) (a : Args)
    (dest_dir_path : String) : List Event × Except PyErr Bool :=
  match (if a.force_full_backup then none
         else some (findLinkDir env today a.base_dir (mainDirFormat a)
           1 a.removal_threshold a.hourly fs2) : Option (Option String)) with
  | none => ([], Except.error PyErr.unboundLocal)
  | some link_dir_path =>
    ((doActualBackup fs2 a.src dest_dir_path link_dir_path
        g1.includedDefault g1.excludedDefault a).1,
     match (doActualBackup fs2 a.src dest_dir_path link_dir_path
        g1.includedDefault g1.excludedDefault a).2 with
     | Except.error e => Except.error e
     | Except.ok code => Except.ok (decide (code = 0 ∨ code = 23)))

/- _main_inter (src/do_backup.py:353-449), assembled from the phases above.
   All phases are pure, so the evaluation order of independent values does
   not affect the result; the trace keeps the source's event order
   (validation, sweep, copy). -/
def mainInter (env : Env) (today : Int) (g : Globals) (fs : FSm) (a : Args) : RunResult :=
  if a.base_dir = "/" then ⟨g, fs, [], Except.ok false⟩
  else
    match validateBaseDir env fs a with
    | none => ⟨g, fs, [], Except.ok false⟩
    | some (fs1, tr1) =>
      if a.base_dir = "/" then ⟨g, fs1, tr1, Except.ok false⟩
      else
        let dest_dir_path := getBackupDirPath env today a.base_dir (mainDirFormat a)
        let swept := sweepPhase env today a fs1
        let g1 := accumulateGlobals g a
        let copied := linkAndCopy env today g1 swept.1 a dest_dir_path
        ⟨g1, swept.1, tr1 ++ swept.2 ++ copied.1, copied.2⟩

/- Concrete fixtures used by the evaluation theorems below. -/

def envT : Env :=
  ⟨fun _ t => "s" ++ toString t, fun s => s, fun _ => "/"⟩

/- A filesystem whose only entry is a writable directory "/backup". -/
def fsBase : FSm :=
  fun p => if p = "/backup" then some ⟨true, true⟩ else none

/- A filesystem whose only entry is a NON-writable directory "/backup". -/
def fsBaseRO : FSm :=
  fun p => if p = "/backup" then some ⟨true, false⟩ else none

/- Baseline arguments: src=["/home"], base-dir "/backup", defaults otherwise,
   removal threshold 0 (sweep disabled, empty link window). -/
def argsT : Args :=
  ⟨["/home"], "/backup", DEFAULT_DIR_FORMAT, none, false, 0, false,
   [], none, [], false, false, "local", "rsync"⟩

/- Baseline arguments with --force-full-backup set. -/
def argsForce : Args :=
  ⟨["/home"], "/backup", DEFAULT_DIR_FORMAT, none, true, 0, false,
   [], none, [], false, false, "local", "rsync"⟩

/- Baseline arguments with --force-full-backup and one user-supplied
   exclusion "/a". -/
def argsEx1 : Args :=
  ⟨["/home"], "/backup", DEFAULT_DIR_FORMAT, none, true, 0, false,
   ["/a"], none, [], false, false, "local", "rsync"⟩

/- Baseline arguments with one user-supplied exclusion "/b". -/
def argsEx2 : Args :=
  ⟨["/home"], "/backup", DEFAULT_DIR_FORMAT, none, false, 0, false,
   ["/b"], none, [], false, false, "local", "rsync"⟩

/- The address the sweep and the link resolver compute for offset i:
   _get_backup_dir_path(today - timedelta(i), base_dir, dir_format). -/
def sweepAddr (env : Env) (today : Int) (base_dir dir_format : String)
    (hourly : Bool) (i : Int) : String :=
  getBackupDirPath env (thatdayOf today hourly i) base_dir dir_format

/- The per-offset observable outcome of the sweep at a path, as a function of
   the filesystem state before the sweep. -/
def sweepEventAt (fs : FSm) (p : String) : Event :=
  if pathExists fs p then
    if pathIsDir fs p then Event.removed p else Event.warnedNotDir p
  else Event.skippedAbsent p

/- No retention-sweep events (remove / warn-skip / absent-skip) in a trace. -/
def NoSweepEvents (tr : List Event) : Prop :=
  ∀ p, Event.removed p ∉ tr ∧ Event.warnedNotDir p ∉ tr ∧ Event.skippedAbsent p ∉ tr

/- Witness environment whose rendered names are the decimal datetime value,
   so that distinct datetimes address distinct paths. -/
def envW : Env := ⟨fun _ t => toString t, fun s => s, fun _ => "/"⟩

/- Witness filesystem: snapshot directories at hourly offsets 2 and 4
   (anchor time 0, base directory "b", rendered names by envW). -/
def fsW24 : FSm := fun p =>
  if p = "b/-2" ∨ p = "b/-4" then some ⟨true, true⟩
  else none

/- Witness environment whose rendered name for datetime t is t.toNat many
   copies of one character, so distinct nonnegative datetimes give distinct
   names by a length argument. -/
def envR : Env :=
  ⟨fun _ t => String.mk (List.replicate t.toNat 'x'), fun s => s, fun _ => "/"⟩

/- Witness filesystem with no entries at all. -/
def fsR : FSm := fun _ => none

/- Permission-repair model for _del_rw (src/do_backup.py:178-234).

   Paths are component lists of absolute paths ("/a/b" = ["a", "b"]);
   os.path.dirname is List.dropLast and the upward walk stops at the root [].
   A directory's stat carries the owner uid and the mode bits the function
   reads or writes: the owner bits S_IXUSR / S_IWUSR, plus other-class
   execute / write bits that settle access checks for non-owners (the group
   class is not distinguished, and os.access's real uid is identified with
   os.geteuid's effective uid).  os.chmod follows OS semantics: it succeeds
   exactly for the owner and raises a permission error otherwise. -/
structure DirStat where
  uid : Nat
  ixusr : Bool
  iwusr : Bool
  ixoth : Bool
  iwoth : Bool
deriving DecidableEq

def PFS : Type := List String → Option DirStat

/- os.access(path, os.X_OK) respectively os.access(path, os.W_OK). -/
def accessX (euid : Nat) (st : DirStat) : Bool :=
  if st.uid = euid then st.ixusr else st.ixoth

def accessW (euid : Nat) (st : DirStat) : Bool :=
  if st.uid = euid then st.iwusr else st.iwoth

/- os.chmod(p, st_mode | stat.S_IXUSR) respectively | stat.S_IWUSR. -/
def chmodSetX (fs : PFS) (p : List String) : PFS :=
  fun q => if q = p then (fs p).map (fun st => { st with ixusr := true }) else fs q

def chmodSetW (fs : PFS) (p : List String) : PFS :=
  fun q => if q = p then (fs p).map (fun st => { st with iwusr := true }) else fs q

/- The ancestor stack of _del_rw in pop order (root-most first): the
   while-loop of lines 207-209 pushes parent, dirname(parent), ... until "/",
   and lines 210-211 pop, so the processed order is every nonempty prefix of
   the parent path, shortest first. -/
def ancestorChain (parent : List String) : List (List String) :=
  (List.range parent.length).map (fun k => parent.take (k + 1))

/- Outcomes of _del_rw: the re-raised original error (exc_info[1], lines 222
   and 234), a FileNotFoundError from os.stat on a missing directory, the
   permission error os.chmod itself raises for a non-owner at the
   unguarded write-bit grant of lines 227-228, and a repeated failure of the
   single retried delete (line 229). -/
inductive DelErr where
  | orig
  | statError
  | chmodDenied
  | retryFailed
deriving DecidableEq

/- The write-bit half of one loop iteration, lines 223-228: after the
   possible execute-bit grant, if the current directory is the immediate
   parent and lacks S_IWUSR, chmod it with NO ownership guard (the OS denies
   the chmod when the caller does not own the directory). -/
def processParentW (euid : Nat) (parent : List String) (fs : PFS)
    (cur : List String) : PFS × Option DelErr :=
  match fs cur with
  | none => (fs, some DelErr.statError)
  | some st =>
    if cur = parent ∧ st.iwusr = false then
      if euid = st.uid then (chmodSetW fs cur, none)
      else (fs, some DelErr.chmodDenied)
    else (fs, none)

/- One loop iteration of lines 210-228: if the directory is not traversable,
   grant S_IXUSR when owned, otherwise re-raise the original error; then the
   write-bit half. -/
def processDir (euid : Nat) (parent : List String) (fs : PFS)
    (cur : List String) : PFS × Option DelErr :=
  match fs cur with
  | none => (fs, some DelErr.statError)
  | some st =>
    if accessX euid st = false then
      if euid = st.uid then processParentW euid parent (chmodSetX fs cur) cur
      else (fs, some DelErr.orig)
    else processParentW euid parent fs cur

/- The popping loop, aborted by the first raise. -/
def walkStep (euid : Nat) (parent : List String) (acc : PFS × Option DelErr)
    (cur : List String) : PFS × Option DelErr :=
  match acc.2 with
  | some _ => acc
  | none => processDir euid parent acc.1 cur

def delRwWalk (euid : Nat) (parent : List String) (fs : PFS) : PFS × Option DelErr :=
  (ancestorChain parent).foldl (walkStep euid parent) (fs, none)

/- Whether the single retried delete (line 229: function(path)) succeeds:
   every proper ancestor must be traversable and the immediate parent
   writable for the calling uid.  The retry does not change any mode bits. -/
def tryDelete (euid : Nat) (fs : PFS) (path : List String) : Bool :=
  ((ancestorChain path.dropLast).all fun p =>
    match fs p with
    | some st => accessX euid st
    | none => false)
  && (match fs path.dropLast with
      | some st => accessW euid st
      | none => false)

structure DelResult where
  fs : PFS
  retries : Nat
  err : Option DelErr

/- _del_rw itself (src/do_backup.py:178-234): non-permission errors are
   re-raised unrepaired (lines 232-234); otherwise the ancestor walk runs
   and, if it completes, the delete is retried exactly once. -/
def delRw (euid : Nat) (fs : PFS) (path : List String) (isPermError : Bool) :
    DelResult :=
  if isPermError = false then ⟨fs, 0, some DelErr.orig⟩
  else
    match delRwWalk euid path.dropLast fs with
    | (fs1, some e) => ⟨fs1, 0, some e⟩
    | (fs1, none) =>
      if tryDelete euid fs1 path then ⟨fs1, 1, none⟩
      else ⟨fs1, 1, some DelErr.retryFailed⟩

/- Decidable per-directory conditions used in the C4 hypotheses. -/

/- The directory exists and is traversable for euid. -/
def accXOk (euid : Nat) (fs : PFS) (q : List String) : Bool :=
  match fs q with
  | some st => accessX euid st
  | none => false

/- The directory exists and is traversable or owned (the walk can pass it). -/
def accOk (euid : Nat) (fs : PFS) (q : List String) : Bool :=
  match fs q with
  | some st => accessX euid st || st.uid == euid
  | none => false

/- The directory exists, is not traversable and is foreign-owned (the walk
   re-raises the original error there). -/
def badForeign (euid : Nat) (fs : PFS) (q : List String) : Bool :=
  match fs q with
  | some st => !(accessX euid st) && !(st.uid == euid)
  | none => false

/- The whole per-directory condition under which the walk completes: the
   directory exists, is traversable or owned, and, if it is the immediate
   parent, is owner-writable or owned. -/
def walkOk (euid : Nat) (parent : List String) (fs : PFS) (q : List String) : Bool :=
  match fs q with
  | some st =>
    (accessX euid st || st.uid == euid) &&
    (if q = parent then st.iwusr || st.uid == euid else true)
  | none => false

/- Concrete model of Python's strftime for the two built-in templates.
   A datetime is an Int of hours since 0001-01-01 00:00 in the proleptic
   Gregorian calendar (the calendar datetime uses; day 0 = January 1 of
   year 1); %Y, %m, %d, %H render zero-padded decimal fields of widths
   4, 2, 2, 2. -/

def isLeap (y : Nat) : Bool := (y % 4 = 0 ∧ y % 100 ≠ 0) ∨ y % 400 = 0

def daysInYear (y : Nat) : Nat := if isLeap y then 366 else 365

def monthLengths (y : Nat) : List Nat :=
  [31, if isLeap y then 29 else 28, 31, 30, 31, 30, 31, 31, 30, 31, 30, 31]

/- Year and day-of-year from a day count, peeling whole years; the fuel
   argument (any value above the day count) only forces structural
   recursion. -/
def cfdYearAux : Nat → Nat → Nat → Nat × Nat
  | 0, y, n => (y, n)
  | fuel + 1, y, n =>
    if n < daysInYear y then (y, n) else cfdYearAux fuel (y + 1) (n - daysInYear y)

def cfdYear (y n : Nat) : Nat × Nat := cfdYearAux (n + 1) y n

/- Month (1-based) and day-of-month (0-based) from a day-of-year, peeling
   whole months. -/
def cfdMonth : List Nat → Nat → Nat → Nat × Nat
  | [], m, n => (m, n)
  | len :: rest, m, n => if n < len then (m, n) else cfdMonth rest (m + 1) (n - len)

/- Civil (year, month, day) of a day count. -/
def civilFromDays (n : Nat) : Nat × Nat × Nat :=
  ((cfdYear 1 n).1,
   (cfdMonth (monthLengths (cfdYear 1 n).1) 1 (cfdYear 1 n).2).1,
   (cfdMonth (monthLengths (cfdYear 1 n).1) 1 (cfdYear 1 n).2).2 + 1)

/- The w-digit zero-padded decimal rendering of n, as digit values and as
   characters (most significant digit first). -/
def padNats : Nat → Nat → List Nat
  | 0, _ => []
  | w + 1, n => (n / 10 ^ w % 10) :: padNats w (n % 10 ^ w)

def padChars (w n : Nat) : List Char := (padNats w n).map Nat.digitChar

/- The %Y%m%d rendering of a day count. -/
def fmtYMD (n : Nat) : List Char :=
  padChars 4 (civilFromDays n).1
    ++ padChars 2 (civilFromDays n).2.1
    ++ padChars 2 (civilFromDays n).2.2

/- The rendered directory names of the built-in templates: the hostname, a
   dash, then %Y%m%d of the day number (and a dash plus %H of the hour of
   day for the hourly template). -/
def nameDaily (host : List Char) (t : Int) : List Char :=
  host ++ '-' :: fmtYMD (t.toNat / 24)

def nameHourly (host : List Char) (t : Int) : List Char :=
  host ++ '-' :: (fmtYMD (t.toNat / 24) ++ '-' :: padChars 2 (t.toNat % 24))

/- strftime(fmt.format(hostname=host), t) for the built-in templates.
   Other templates are outside the scope of the injectivity claim and
   render as the bare hostname. -/
def strftimeBuiltin (host : List Char) : String → Int → String := fun fmt t =>
  if fmt = DEFAULT_DIR_FORMAT then String.mk (nameDaily host t)
  else if fmt = DEFAULT_DIR_FORMAT_HOURLY then String.mk (nameHourly host t)
  else String.mk host

def envBuiltin (host : List Char) : Env :=
  ⟨strftimeBuiltin host, fun s => s, fun _ => "/"⟩

/- Counterexample filesystem for C4: "/home" traversable by anyone, the
   parent "/home/u" owned by uid 0, traversable by anyone, without S_IWUSR;
   the path to delete "/home/u/x" owned by uid 1000. -/
def fsC : PFS := fun p =>
  if p = ["home"] then some ⟨0, true, true, true, true⟩
  else if p = ["home", "u"] then some ⟨0, true, false, true, true⟩
  else if p = ["home", "u", "x"] then some ⟨1000, true, true, true, true⟩
  else none

/- Witness filesystem for C4: everything owned by uid 1000 and fully
   accessible. -/
def fsD : PFS := fun p =>
  if p = ["home"] ∨ p = ["home", "u"] ∨ p = ["home", "u", "x"] then
    some ⟨1000, true, true, false, false⟩
  else none

end DoBackup

namespace DoBackup

/-- Claim C1 (code bug): at a concrete invocation of the copy runner the
child process is spawned (one spawn event) and then the function raises
TypeError, because line 334 of src/do_backup.py subscripts the argparse
Namespace (args[0]); it never returns the spawned process's exit code,
contradicting its docstring "Returns exit status code of rsync command." -/
theorem c1_do_actual_backup_raises_typeerror :
    ((doActualBackup fsBase ["/home"] "/backup/s0" none [] defaultExcludedDir
        argsT).2 = Except.error PyErr.typeError)
    ∧ ((doActualBackup fsBase ["/home"] "/backup/s0" none [] defaultExcludedDir
        argsT).1).length = 1 := by
  exact ⟨rfl, rfl⟩

/-- Claim C2 (code bug): with the forced-full-backup flag set on an otherwise
valid configuration, _main_inter raises UnboundLocalError: link_dir_path is
only assigned in the non-forced branch (src/do_backup.py:419) yet is read at
the copy call (line 436), so the run crashes before the copy step instead of
running the copy with no link source. -/
theorem c2_force_full_backup_unbound_local :
    (mainInter envT 0 initGlobals fsBase argsForce).result
      = Except.error PyErr.unboundLocal := by
  exact rfl

/-- Claim C3 (code bug): with a destination root that exists and is a
directory but is NOT writable, _main_inter logs the writability error
(src/do_backup.py:381-383 has no return statement) and then proceeds all the
way to the copy step (witnessed by the TypeError raised inside
_do_actual_backup) instead of aborting with a False return. -/
theorem c3_not_writable_is_not_fatal :
    (Event.loggedNotWritable "/backup" ∈ (mainInter envT 0 initGlobals fsBaseRO argsT).trace)
    ∧ ((mainInter envT 0 initGlobals fsBaseRO argsT).result
        = Except.error PyErr.typeError) := by
  exact ⟨by decide, rfl⟩

/- Helper lemmas about pyRange. -/

theorem pyRange_eq_nil {a b : Int} (h : b ≤ a) : pyRange a b = [] := by
  rw [pyRange]
  rw [dif_neg (by omega)]

theorem pyRange_eq_cons {a b : Int} (h : a < b) : pyRange a b = a :: pyRange (a + 1) b := by
  rw [pyRange]
  rw [dif_pos h]

theorem mem_pyRange {a b i : Int} : i ∈ pyRange a b ↔ a ≤ i ∧ i < b := by
  generalize hn : (b - a).toNat = n
  induction n generalizing a with
  | zero =>
    rw [pyRange_eq_nil (by omega)]
    simp only [List.not_mem_nil, false_iff]
    omega
  | succ k ih =>
    rw [pyRange_eq_cons (by omega), List.mem_cons,
      ih (show (b - (a + 1)).toNat = k by omega)]
    omega

theorem pyRange_nodup (a b : Int) : (pyRange a b).Nodup := by
  generalize hn : (b - a).toNat = n
  induction n generalizing a with
  | zero =>
    rw [pyRange_eq_nil (by omega)]
    exact List.nodup_nil
  | succ k ih =>
    rw [pyRange_eq_cons (by omega)]
    rw [List.nodup_cons]
    constructor
    · intro hmem
      rw [mem_pyRange] at hmem
      omega
    · exact ih (a + 1) (by omega)

/- Helper lemmas: List.findSome? over a pyRange. -/

theorem findSome?_pyRange_none {α : Type} (f : Int → Option α) (a b : Int)
    (h : ∀ i, a ≤ i → i < b → f i = none) :
    (pyRange a b).findSome? f = none := by
  generalize hn : (b - a).toNat = n
  induction n generalizing a with
  | zero =>
    rw [pyRange_eq_nil (by omega)]
    rfl
  | succ k ih =>
    have hab : a < b := by omega
    rw [pyRange_eq_cons hab, List.findSome?_cons, h a (le_refl a) hab]
    exact ih (a + 1) (fun i h1 h2 => h i (by omega) h2) (by omega)

theorem findSome?_pyRange_first {α : Type} (f : Int → Option α) (a b i0 : Int) (v : α)
    (h0 : a ≤ i0) (h1 : i0 < b) (hv : f i0 = some v)
    (hnone : ∀ j, a ≤ j → j < i0 → f j = none) :
    (pyRange a b).findSome? f = some v := by
  generalize hn : (b - a).toNat = n
  induction n generalizing a with
  | zero => omega
  | succ k ih =>
    have hab : a < b := by omega
    rw [pyRange_eq_cons hab, List.findSome?_cons]
    by_cases hai : a = i0
    · subst hai
      rw [hv]
    · rw [hnone a (le_refl a) (by omega)]
      exact ih (a + 1) (by omega) (fun j hj1 hj2 => hnone j (by omega) hj2) (by omega)

/- Helper lemmas about the filesystem predicates. -/

theorem pathIsDir_of_none {fs : FSm} {p : String} (h : fs p = none) :
    pathIsDir fs p = false := by
  unfold pathIsDir
  rw [h]

theorem pathExists_false_isDir {fs : FSm} {p : String} (h : pathExists fs p = false) :
    pathIsDir fs p = false := by
  unfold pathExists at h
  cases hfs : fs p with
  | none => exact pathIsDir_of_none hfs
  | some e => rw [hfs] at h; simp at h

theorem fsRemove_self (fs : FSm) (p : String) : fsRemove fs p p = none := by
  unfold fsRemove
  simp

theorem fsRemove_other {fs : FSm} {p q : String} (h : q ≠ p) : fsRemove fs p q = fs q := by
  unfold fsRemove
  simp [h]

theorem pathIsDir_congr {fs1 fs2 : FSm} {p : String} (h : fs1 p = fs2 p) :
    pathIsDir fs1 p = pathIsDir fs2 p := by
  unfold pathIsDir
  rw [h]

theorem sweepEventAt_congr {fs1 fs2 : FSm} {p : String} (h : fs1 p = fs2 p) :
    sweepEventAt fs1 p = sweepEventAt fs2 p := by
  unfold sweepEventAt pathExists pathIsDir
  rw [h]

/- One loop iteration of the sweep, re-expressed through sweepEventAt. -/
theorem removeOldStep_eq (env : Env) (today : Int) (b f : String) (hl : Bool)
    (fs : FSm) (tr : List Event) (i : Int) :
    removeOldStep env today b f hl (fs, tr) i
      = ((if pathIsDir fs (sweepAddr env today b f hl i) = true
            then fsRemove fs (sweepAddr env today b f hl i) else fs),
         tr ++ [sweepEventAt fs (sweepAddr env today b f hl i)]) := by
  unfold removeOldStep sweepEventAt sweepAddr
  by_cases he : pathExists fs (getBackupDirPath env (thatdayOf today hl i) b f) = true
  · by_cases hd : pathIsDir fs (getBackupDirPath env (thatdayOf today hl i) b f) = true
    · simp [he, hd]
    · simp [he, hd]
  · have he' : pathExists fs (getBackupDirPath env (thatdayOf today hl i) b f) = false := by
      simpa using he
    have hd := pathExists_false_isDir he'
    simp [he', hd]

/- Characterization of the sweep loop over a duplicate-free offset list whose
   addresses are pairwise distinct: the trace is the per-offset outcome with
   respect to the initial filesystem, and an address is removed exactly when
   some visited offset maps to it and it was a directory. -/
theorem sweep_foldl_char (env : Env) (today : Int) (b f : String) (hl : Bool)
    (L : List Int) :
    ∀ (fs : FSm) (tr : List Event), L.Nodup →
    (∀ i ∈ L, ∀ j ∈ L,
       sweepAddr env today b f hl i = sweepAddr env today b f hl j → i = j) →
    ((L.foldl (removeOldStep env today b f hl) (fs, tr)).2
        = tr ++ L.map (fun i => sweepEventAt fs (sweepAddr env today b f hl i)))
    ∧ (∀ q : String, (L.foldl (removeOldStep env today b f hl) (fs, tr)).1 q
        = if ((L.any fun i => sweepAddr env today b f hl i == q) && pathIsDir fs q) = true
          then none else fs q) := by
  induction L with
  | nil =>
    intro fs tr _ _
    constructor
    · simp
    · intro q
      simp
  | cons i L ih =>
    intro fs tr hnd hinj
    have hi : i ∉ L := (List.nodup_cons.mp hnd).1
    have hnd' : L.Nodup := (List.nodup_cons.mp hnd).2
    have hinj' : ∀ x ∈ L, ∀ y ∈ L,
        sweepAddr env today b f hl x = sweepAddr env today b f hl y → x = y :=
      fun x hx y hy => hinj x (List.mem_cons_of_mem _ hx) y (List.mem_cons_of_mem _ hy)
    have haddr : ∀ j ∈ L, sweepAddr env today b f hl j ≠ sweepAddr env today b f hl i := by
      intro j hj hcontra
      have := hinj j (List.mem_cons_of_mem _ hj) i (List.mem_cons_self _ _) hcontra
      subst this
      exact hi hj
    rw [List.foldl_cons, removeOldStep_eq]
    have hfs1 : ∀ q : String, q ≠ sweepAddr env today b f hl i →
        (if pathIsDir fs (sweepAddr env today b f hl i) = true
           then fsRemove fs (sweepAddr env today b f hl i) else fs) q = fs q := by
      intro q hq
      by_cases hd : pathIsDir fs (sweepAddr env today b f hl i) = true
      · rw [if_pos hd, fsRemove_other hq]
      · rw [if_neg hd]
    obtain ⟨ihTr, ihFs⟩ := ih
      (if pathIsDir fs (sweepAddr env today b f hl i) = true
         then fsRemove fs (sweepAddr env today b f hl i) else fs)
      (tr ++ [sweepEventAt fs (sweepAddr env today b f hl i)]) hnd' hinj'
    constructor
    · rw [ihTr, List.map_cons, List.append_assoc, List.singleton_append]
      congr 2
      apply List.map_congr_left
      intro j hj
      exact sweepEventAt_congr (hfs1 _ (haddr j hj))
    · intro q
      rw [ihFs q]
      by_cases hq : q = sweepAddr env today b f hl i
      · subst hq
        by_cases hd : pathIsDir fs (sweepAddr env today b f hl i) = true
        · have h1 : (if pathIsDir fs (sweepAddr env today b f hl i) = true
              then fsRemove fs (sweepAddr env today b f hl i) else fs)
                (sweepAddr env today b f hl i) = none := by
            rw [if_pos hd]
            exact fsRemove_self _ _
          have h2 := pathIsDir_of_none h1
          rw [h2, h1]
          simp [List.any_cons, hd]
        · have hd' : pathIsDir fs (sweepAddr env today b f hl i) = false := by
            simpa using hd
          rw [if_neg hd]
          rw [hd']
          simp [List.any_cons, hd']
      · have h1 := hfs1 q hq
        have h2 := pathIsDir_congr h1
        rw [h1, h2]
        have hne : (sweepAddr env today b f hl i == q) = false := by
          simp [Ne.symm hq]
        simp [List.any_cons, hne]

/- An empty scan window: range(1, t + 1) is empty when t ≤ 0. -/
theorem findLinkDir_nonpos {env : Env} {today : Int} {b f : String} {t : Int}
    {hl : Bool} {fs : FSm} (ht : t ≤ 0) :
    findLinkDir env today b f 1 t hl fs = none := by
  unfold findLinkDir
  rw [pyRange_eq_nil (by omega)]
  rfl

/- Every event emitted by the copy runner is a spawn whose command records
   exactly the link source it was handed. -/
theorem doActualBackup_trace {fs : FSm} {src : List String} {dest : String}
    {link : Option String} {incl excl : List String} {a : Args} :
    ∀ e ∈ (doActualBackup fs src dest link incl excl a).1,
      ∃ c : RsyncCmd, e = Event.spawn c ∧ c.link = link
        ∧ c.included = incl ∧ c.excluded = excl := by
  intro e he
  simp only [doActualBackup] at he
  cases hid : a.identity_file with
  | none =>
    rw [hid] at he
    simp at he
    exact ⟨_, he, rfl, rfl, rfl⟩
  | some fkey =>
    rw [hid] at he
    by_cases hex : pathExists fs fkey = true
    · simp only [hex, if_true, List.mem_singleton] at he
      exact ⟨_, he, rfl, rfl, rfl⟩
    · simp [hex] at he

/- The trace component a successful destination-root validation can produce. -/
theorem validateBaseDir_trace {env : Env} {fs : FSm} {a : Args} {fs1 : FSm}
    {tr1 : List Event} (h : validateBaseDir env fs a = some (fs1, tr1)) :
    tr1 = [] ∨ (∃ p, tr1 = [Event.loggedNotWritable p]) ∨
    (∃ p, tr1 = [Event.mkdirEv p]) := by
  simp only [validateBaseDir] at h
  split at h
  · split at h
    · rw [Option.some.injEq, Prod.mk.injEq] at h
      obtain ⟨-, h⟩ := h
      split at h
      · exact Or.inl h.symm
      · exact Or.inr (Or.inl ⟨_, h.symm⟩)
    · exact absurd h (by simp)
  · split at h
    · rw [Option.some.injEq, Prod.mk.injEq] at h
      exact Or.inr (Or.inr ⟨_, h.2.symm⟩)
    · exact absurd h (by simp)

/- With a nonpositive threshold the sweep phase is skipped entirely. -/
theorem sweepPhase_nonpos {env : Env} {today : Int} {a : Args} {fs1 : FSm}
    (ht : a.removal_threshold ≤ 0) :
    sweepPhase env today a fs1 = (fs1, []) := by
  unfold sweepPhase
  rw [if_neg (by omega)]

/- Every event of the link-resolution-plus-copy phase is a spawn recording
   the resolved link source, and the phase only emits events when the run is
   not a forced full backup. -/
theorem linkAndCopy_trace {env : Env} {today : Int} {g1 : Globals} {fs2 : FSm}
    {a : Args} {dest : String} :
    ∀ e ∈ (linkAndCopy env today g1 fs2 a dest).1,
      a.force_full_backup = false ∧
      ∃ c : RsyncCmd, e = Event.spawn c ∧
        c.link = findLinkDir env today a.base_dir (mainDirFormat a)
          1 a.removal_threshold a.hourly fs2
        ∧ c.included = g1.includedDefault ∧ c.excluded = g1.excludedDefault := by
  intro e he
  unfold linkAndCopy at he
  by_cases hf : a.force_full_backup = true
  · rw [if_pos hf] at he
    simp at he
  · rw [if_neg hf] at he
    dsimp only at he
    exact ⟨by simpa using hf, doActualBackup_trace e he⟩

/- With a nonpositive removal threshold, every event of a whole run is either
   the not-writable log event, the mkdir event, or a spawn with no link
   source (and then the run is not a forced full backup). -/
theorem mainInter_nonpos_trace (env : Env) (today : Int) (g : Globals) (fs : FSm)
    (a : Args) (ht : a.removal_threshold ≤ 0) :
    ∀ e ∈ (mainInter env today g fs a).trace,
      (∃ p, e = Event.loggedNotWritable p) ∨ (∃ p, e = Event.mkdirEv p) ∨
      (a.force_full_backup = false ∧
        ∃ c : RsyncCmd, e = Event.spawn c ∧ c.link = none) := by
  intro e he
  unfold mainInter at he
  by_cases hroot : a.base_dir = "/"
  · rw [if_pos hroot] at he
    simp at he
  · rw [if_neg hroot] at he
    cases hv : validateBaseDir env fs a with
    | none =>
      rw [hv] at he
      simp at he
    | some pair =>
      obtain ⟨fs1, tr1⟩ := pair
      rw [hv] at he
      dsimp only at he
      rw [if_neg hroot, sweepPhase_nonpos ht] at he
      dsimp only at he
      rw [List.append_nil] at he
      rw [List.mem_append] at he
      rcases he with he | he
      · rcases validateBaseDir_trace hv with h | ⟨p, h⟩ | ⟨p, h⟩ <;> subst h <;> simp at he
        · exact Or.inl ⟨_, he⟩
        · exact Or.inr (Or.inl ⟨_, he⟩)
      · obtain ⟨hforce, c, hc, hcl, -, -⟩ := linkAndCopy_trace e he
        refine Or.inr (Or.inr ⟨hforce, c, hc, ?_⟩)
        rw [hcl]
        exact findLinkDir_nonpos ht

/- Helper lemmas for the permission-repair model. -/

theorem ancestorChain_nil : ancestorChain ([] : List String) = [] := rfl

theorem ancestorChain_append {p : List String} (h : p ≠ []) :
    ancestorChain p = ancestorChain p.dropLast ++ [p] := by
  unfold ancestorChain
  have hpos : 0 < p.length := List.length_pos.mpr h
  have hdl : p.dropLast.length = p.length - 1 := List.length_dropLast p
  have hlen : p.length = p.dropLast.length + 1 := by omega
  rw [hlen, List.range_succ, List.map_append]
  congr 1
  · apply List.map_congr_left
    intro k hk
    rw [List.mem_range] at hk
    rw [List.dropLast_eq_take, List.take_take]
    rw [min_eq_left (by omega)]
  · rw [List.map_singleton, ← hlen, List.take_length]

theorem mem_ancestorChain_length {q : List String} :
    ∀ (n : Nat) (p : List String), p.length = n → q ∈ ancestorChain p →
      1 ≤ q.length ∧ q.length ≤ p.length := by
  intro n
  induction n using Nat.strong_induction_on with
  | _ n ih =>
    intro p hn hq
    by_cases hp : p = []
    · subst hp
      rw [ancestorChain_nil] at hq
      simp at hq
    · rw [ancestorChain_append hp, List.mem_append] at hq
      have hlen : p.dropLast.length = p.length - 1 := List.length_dropLast p
      have hpos : 0 < p.length := List.length_pos.mpr hp
      rcases hq with hq | hq
      · have := ih p.dropLast.length (by omega) p.dropLast rfl hq
        omega
      · rw [List.mem_singleton] at hq
        subst hq
        omega

theorem mem_ancestorChain_le {p q : List String} (h : q ∈ ancestorChain p) :
    1 ≤ q.length ∧ q.length ≤ p.length :=
  mem_ancestorChain_length p.length p rfl h

theorem ancestorChain_nodup :
    ∀ (n : Nat) (p : List String), p.length = n → (ancestorChain p).Nodup := by
  intro n
  induction n using Nat.strong_induction_on with
  | _ n ih =>
    intro p hn
    by_cases hp : p = []
    · subst hp
      rw [ancestorChain_nil]
      exact List.nodup_nil
    · rw [ancestorChain_append hp]
      have hlen : p.dropLast.length = p.length - 1 := List.length_dropLast p
      have hpos : 0 < p.length := List.length_pos.mpr hp
      rw [List.nodup_append]
      refine ⟨ih p.dropLast.length (by omega) p.dropLast rfl, List.nodup_singleton _, ?_⟩
      intro q hq
      have hle := mem_ancestorChain_le hq
      simp only [List.mem_singleton]
      intro hcontra
      subst hcontra
      omega

/- Per-step lemmas. -/

theorem chmodSetX_other {fs : PFS} {p q : List String} (h : q ≠ p) :
    chmodSetX fs p q = fs q := by
  unfold chmodSetX
  simp [h]

theorem chmodSetW_other {fs : PFS} {p q : List String} (h : q ≠ p) :
    chmodSetW fs p q = fs q := by
  unfold chmodSetW
  simp [h]

theorem processParentW_untouched {euid : Nat} {parent fs cur q}
    (h : q ≠ cur) : (processParentW euid parent fs cur).1 q = fs q := by
  unfold processParentW
  cases hfc : fs cur with
  | none => rfl
  | some st =>
    dsimp only
    split
    · split
      · exact chmodSetW_other h
      · rfl
    · rfl

theorem processParentW_notparent {euid : Nat} {parent fs cur : _} {st : DirStat}
    (hfc : fs cur = some st) (hne : cur ≠ parent) :
    processParentW euid parent fs cur = (fs, none) := by
  unfold processParentW
  rw [hfc]
  dsimp only
  rw [if_neg (by simp [hne])]

theorem processDir_untouched {euid : Nat} {parent fs cur q}
    (h : q ≠ cur) : (processDir euid parent fs cur).1 q = fs q := by
  unfold processDir
  cases hfc : fs cur with
  | none => rfl
  | some st =>
    dsimp only
    split
    · split
      · rw [processParentW_untouched h, chmodSetX_other h]
      · rfl
    · exact processParentW_untouched h

theorem processDir_pass {euid : Nat} {parent fs cur : _} {st : DirStat}
    (hfc : fs cur = some st) (hx : accessX euid st = true) (hne : cur ≠ parent) :
    processDir euid parent fs cur = (fs, none) := by
  unfold processDir
  rw [hfc]
  dsimp only
  rw [if_neg (by simp [hx]), processParentW_notparent hfc hne]

theorem processDir_grantX {euid : Nat} {parent fs cur : _} {st : DirStat}
    (hfc : fs cur = some st) (hx : accessX euid st = false) (ho : euid = st.uid)
    (hne : cur ≠ parent) :
    processDir euid parent fs cur = (chmodSetX fs cur, none) := by
  unfold processDir
  rw [hfc]
  dsimp only
  rw [if_pos hx, if_pos ho]
  have h1 : (chmodSetX fs cur) cur = some { st with ixusr := true } := by
    unfold chmodSetX
    simp [hfc]
  exact processParentW_notparent h1 hne

theorem processDir_foreignX {euid : Nat} {parent fs cur : _} {st : DirStat}
    (hfc : fs cur = some st) (hx : accessX euid st = false) (ho : ¬ euid = st.uid) :
    processDir euid parent fs cur = (fs, some DelErr.orig) := by
  unfold processDir
  rw [hfc]
  dsimp only
  rw [if_pos hx, if_neg ho]

theorem processDir_parent_denied {euid : Nat} {fs : PFS} {parent : List String}
    {st : DirStat} (hfc : fs parent = some st) (hx : accessX euid st = true)
    (hw : st.iwusr = false) (ho : ¬ euid = st.uid) :
    processDir euid parent fs parent = (fs, some DelErr.chmodDenied) := by
  unfold processDir
  rw [hfc]
  dsimp only
  rw [if_neg (by simp [hx])]
  unfold processParentW
  rw [hfc]
  dsimp only
  rw [if_pos ⟨rfl, hw⟩, if_neg ho]

theorem processDir_foreign {euid : Nat} {parent fs cur q : _} {st : DirStat}
    (hq : fs q = some st) (ho : st.uid ≠ euid) :
    (processDir euid parent fs cur).1 q = some st := by
  by_cases hcur : q = cur
  · subst hcur
    unfold processDir
    rw [hq]
    dsimp only
    split
    · split
      · rename_i hown
        exact absurd hown.symm ho
      · exact hq
    · unfold processParentW
      rw [hq]
      dsimp only
      split
      · split
        · rename_i hown
          exact absurd hown.symm ho
        · exact hq
      · exact hq
  · rw [processDir_untouched hcur, hq]

theorem processDir_parent_ok {euid : Nat} {fs : PFS} {parent : List String}
    {st : DirStat} (hfc : fs parent = some st)
    (hok : (accessX euid st || st.uid == euid) = true)
    (hwok : (st.iwusr || st.uid == euid) = true) :
    (processDir euid parent fs parent).2 = none := by
  by_cases hx : accessX euid st = true
  · unfold processDir
    rw [hfc]
    dsimp only
    rw [if_neg (by simp [hx])]
    unfold processParentW
    rw [hfc]
    dsimp only
    by_cases hw : st.iwusr = false
    · rw [if_pos ⟨rfl, hw⟩]
      have hown : euid = st.uid := by
        rw [hw] at hwok
        simp at hwok
        omega
      rw [if_pos hown]
    · rw [if_neg (by simp [hw])]
  · have hx' : accessX euid st = false := by simpa using hx
    have hown : euid = st.uid := by
      rw [hx'] at hok
      simp at hok
      omega
    unfold processDir
    rw [hfc]
    dsimp only
    rw [if_pos (by simpa using hx), if_pos hown]
    have h1 : (chmodSetX fs parent) parent = some { st with ixusr := true } := by
      unfold chmodSetX
      simp [hfc]
    unfold processParentW
    rw [h1]
    dsimp only
    by_cases hw : st.iwusr = false
    · rw [if_pos ⟨rfl, by simpa using hw⟩]
      have hown2 : euid = ({ st with ixusr := true } : DirStat).uid := hown
      rw [if_pos hown2]
    · rw [if_neg (by simp [hw])]

/- Walk-level lemmas for the permission-repair model. -/

theorem walk_absorb (euid : Nat) (parent : List String) :
    ∀ (L : List (List String)) (fs : PFS) (e : DelErr),
      L.foldl (walkStep euid parent) (fs, some e) = (fs, some e) := by
  intro L
  induction L with
  | nil =>
    intro fs e
    rfl
  | cons c L ih =>
    intro fs e
    rw [List.foldl_cons]
    exact ih fs e

theorem walkStep_none {euid : Nat} {parent : List String}
    {acc : PFS × Option DelErr} {cur : List String} (h : acc.2 = none) :
    walkStep euid parent acc cur = processDir euid parent acc.1 cur := by
  unfold walkStep
  rw [h]

theorem walkStep_untouched {euid : Nat} {parent : List String}
    {acc : PFS × Option DelErr} {cur q : List String} (h : q ≠ cur) :
    (walkStep euid parent acc cur).1 q = acc.1 q := by
  unfold walkStep
  cases hacc : acc.2 with
  | some e => rfl
  | none =>
    dsimp only
    exact processDir_untouched h

theorem walk_untouched (euid : Nat) (parent : List String) :
    ∀ (L : List (List String)) (acc : PFS × Option DelErr) (q : List String),
      q ∉ L → ((L.foldl (walkStep euid parent) acc).1) q = acc.1 q := by
  intro L
  induction L with
  | nil =>
    intro acc q _
    rfl
  | cons c L ih =>
    intro acc q hq
    rw [List.mem_cons] at hq
    push_neg at hq
    rw [List.foldl_cons, ih (walkStep euid parent acc c) q hq.2]
    exact walkStep_untouched hq.1

theorem walkStep_foreign {euid : Nat} {parent : List String}
    {acc : PFS × Option DelErr} {cur q : List String} {st : DirStat}
    (hq : acc.1 q = some st) (ho : st.uid ≠ euid) :
    (walkStep euid parent acc cur).1 q = some st := by
  unfold walkStep
  cases hacc : acc.2 with
  | some e => exact hq
  | none =>
    dsimp only
    exact processDir_foreign hq ho

theorem walk_foreign (euid : Nat) (parent : List String) :
    ∀ (L : List (List String)) (acc : PFS × Option DelErr) (q : List String)
      (st : DirStat), acc.1 q = some st → st.uid ≠ euid →
      ((L.foldl (walkStep euid parent) acc).1) q = some st := by
  intro L
  induction L with
  | nil =>
    intro acc q st hq _
    exact hq
  | cons c L ih =>
    intro acc q st hq ho
    rw [List.foldl_cons]
    exact ih _ q st (walkStep_foreign hq ho) ho

theorem walk_accessible (euid : Nat) (parent : List String) :
    ∀ (L : List (List String)) (fs : PFS),
      (∀ q ∈ L, q ≠ parent ∧ accXOk euid fs q = true) →
      L.foldl (walkStep euid parent) (fs, none) = (fs, none) := by
  intro L
  induction L with
  | nil =>
    intro fs _
    rfl
  | cons c L ih =>
    intro fs h
    obtain ⟨hcne, hcacc⟩ := h c (List.mem_cons_self _ _)
    unfold accXOk at hcacc
    rw [List.foldl_cons]
    cases hfc : fs c with
    | none =>
      rw [hfc] at hcacc
      simp at hcacc
    | some st =>
      rw [hfc] at hcacc
      dsimp only at hcacc
      have hstep : walkStep euid parent (fs, none) c = (fs, none) := by
        show processDir euid parent fs c = (fs, none)
        exact processDir_pass hfc hcacc hcne
      rw [hstep]
      exact ih fs (fun q hq => h q (List.mem_cons_of_mem _ hq))

theorem walk_ok (euid : Nat) (parent : List String) :
    ∀ (L : List (List String)) (fs : PFS), L.Nodup →
      (∀ q ∈ L, q ≠ parent ∧ accOk euid fs q = true) →
      ((L.foldl (walkStep euid parent) (fs, none)).2 = none
       ∧ ∀ q, q ∉ L → ((L.foldl (walkStep euid parent) (fs, none)).1) q = fs q) := by
  intro L
  induction L with
  | nil =>
    intro fs _ _
    exact ⟨rfl, fun q _ => rfl⟩
  | cons c L ih =>
    intro fs hnd h
    obtain ⟨hcne, hcok⟩ := h c (List.mem_cons_self _ _)
    have hcnotin : c ∉ L := (List.nodup_cons.mp hnd).1
    have hnd' := (List.nodup_cons.mp hnd).2
    rw [List.foldl_cons]
    unfold accOk at hcok
    cases hfc : fs c with
    | none =>
      rw [hfc] at hcok
      simp at hcok
    | some st =>
      rw [hfc] at hcok
      dsimp only at hcok
      by_cases hx : accessX euid st = true
      · have hstep : walkStep euid parent (fs, none) c = (fs, none) := by
          show processDir euid parent fs c = (fs, none)
          exact processDir_pass hfc hx hcne
        rw [hstep]
        obtain ⟨h2, h1⟩ := ih fs hnd' (fun q hq => h q (List.mem_cons_of_mem _ hq))
        refine ⟨h2, ?_⟩
        intro q hq
        rw [List.mem_cons] at hq
        push_neg at hq
        exact h1 q hq.2
      · have hx' : accessX euid st = false := by simpa using hx
        have hown : euid = st.uid := by
          rw [hx'] at hcok
          simp at hcok
          omega
        have hstep : walkStep euid parent (fs, none) c = (chmodSetX fs c, none) := by
          show processDir euid parent fs c = _
          exact processDir_grantX hfc hx' hown hcne
        rw [hstep]
        have hcond : ∀ q ∈ L, q ≠ parent ∧ accOk euid (chmodSetX fs c) q = true := by
          intro q hq
          have hne : q ≠ c := fun hcontra => hcnotin (hcontra ▸ hq)
          obtain ⟨hqp, hqok⟩ := h q (List.mem_cons_of_mem _ hq)
          refine ⟨hqp, ?_⟩
          unfold accOk at hqok ⊢
          rw [chmodSetX_other hne]
          exact hqok
        obtain ⟨h2, h1⟩ := ih (chmodSetX fs c) hnd' hcond
        refine ⟨h2, ?_⟩
        intro q hq
        rw [List.mem_cons] at hq
        push_neg at hq
        rw [h1 q hq.2]
        exact chmodSetX_other hq.1

/- Calendar and rendering lemmas for the addressor injectivity claim. -/

theorem daysInYear_ge (y : Nat) : 365 ≤ daysInYear y := by
  unfold daysInYear
  split <;> omega

theorem cfdYearAux_fuel :
    ∀ (n f1 f2 y : Nat), n < f1 → n < f2 → cfdYearAux f1 y n = cfdYearAux f2 y n := by
  intro n
  induction n using Nat.strong_induction_on with
  | _ n ih =>
    intro f1 f2 y h1 h2
    cases f1 with
    | zero => omega
    | succ f1 =>
      cases f2 with
      | zero => omega
      | succ f2 =>
        show (if n < daysInYear y then (y, n) else cfdYearAux f1 (y + 1) (n - daysInYear y))
          = (if n < daysInYear y then (y, n) else cfdYearAux f2 (y + 1) (n - daysInYear y))
        by_cases hlt : n < daysInYear y
        · rw [if_pos hlt, if_pos hlt]
        · have hd := daysInYear_ge y
          rw [if_neg hlt, if_neg hlt]
          exact ih (n - daysInYear y) (by omega) f1 f2 (y + 1) (by omega) (by omega)

theorem cfdYear_eq (y n : Nat) :
    cfdYear y n = if n < daysInYear y then (y, n)
      else cfdYear (y + 1) (n - daysInYear y) := by
  unfold cfdYear
  show (if n < daysInYear y then (y, n) else cfdYearAux n (y + 1) (n - daysInYear y)) = _
  by_cases hlt : n < daysInYear y
  · rw [if_pos hlt, if_pos hlt]
  · have hd := daysInYear_ge y
    rw [if_neg hlt, if_neg hlt]
    exact cfdYearAux_fuel (n - daysInYear y) n (n - daysInYear y + 1) (y + 1)
      (by omega) (by omega)

theorem cfdYear_fst_ge : ∀ (n y : Nat), y ≤ (cfdYear y n).1 := by
  intro n
  induction n using Nat.strong_induction_on with
  | _ n ih =>
    intro y
    rw [cfdYear_eq]
    by_cases hlt : n < daysInYear y
    · rw [if_pos hlt]
    · have hd := daysInYear_ge y
      rw [if_neg hlt]
      have := ih (n - daysInYear y) (by omega) (y + 1)
      omega

theorem cfdYear_snd_lt : ∀ (n y : Nat), (cfdYear y n).2 < daysInYear (cfdYear y n).1 := by
  intro n
  induction n using Nat.strong_induction_on with
  | _ n ih =>
    intro y
    rw [cfdYear_eq]
    by_cases hlt : n < daysInYear y
    · rw [if_pos hlt]
      exact hlt
    · have hd := daysInYear_ge y
      rw [if_neg hlt]
      exact ih (n - daysInYear y) (by omega) (y + 1)

theorem cfdYear_inj : ∀ (n1 n2 y : Nat), cfdYear y n1 = cfdYear y n2 → n1 = n2 := by
  intro n1
  induction n1 using Nat.strong_induction_on with
  | _ n1 ih =>
    intro n2 y heq
    rw [cfdYear_eq, cfdYear_eq y n2] at heq
    have hd := daysInYear_ge y
    by_cases h1 : n1 < daysInYear y
    · rw [if_pos h1] at heq
      by_cases h2 : n2 < daysInYear y
      · rw [if_pos h2] at heq
        rw [Prod.mk.injEq] at heq
        exact heq.2
      · rw [if_neg h2] at heq
        have hge := cfdYear_fst_ge (n2 - daysInYear y) (y + 1)
        have hfst := congrArg Prod.fst heq
        dsimp at hfst
        omega
    · rw [if_neg h1] at heq
      by_cases h2 : n2 < daysInYear y
      · rw [if_pos h2] at heq
        have hge := cfdYear_fst_ge (n1 - daysInYear y) (y + 1)
        have hfst := congrArg Prod.fst heq
        dsimp at hfst
        omega
      · rw [if_neg h2] at heq
        have := ih (n1 - daysInYear y) (by omega) (n2 - daysInYear y) (y + 1) heq
        omega

theorem cfdMonth_cons (len : Nat) (rest : List Nat) (m n : Nat) :
    cfdMonth (len :: rest) m n
      = if n < len then (m, n) else cfdMonth rest (m + 1) (n - len) := rfl

theorem cfdMonth_fst_ge : ∀ (ms : List Nat) (m n : Nat), m ≤ (cfdMonth ms m n).1 := by
  intro ms
  induction ms with
  | nil =>
    intro m n
    exact le_refl m
  | cons len rest ih =>
    intro m n
    rw [cfdMonth_cons]
    by_cases h : n < len
    · rw [if_pos h]
    · rw [if_neg h]
      have := ih (m + 1) (n - len)
      omega

theorem cfdMonth_inj : ∀ (ms : List Nat) (m n1 n2 : Nat), n1 < ms.sum → n2 < ms.sum →
    cfdMonth ms m n1 = cfdMonth ms m n2 → n1 = n2 := by
  intro ms
  induction ms with
  | nil =>
    intro m n1 n2 h1 _ _
    simp at h1
  | cons len rest ih =>
    intro m n1 n2 h1 h2 heq
    rw [List.sum_cons] at h1 h2
    rw [cfdMonth_cons, cfdMonth_cons] at heq
    by_cases ha : n1 < len
    · rw [if_pos ha] at heq
      by_cases hb : n2 < len
      · rw [if_pos hb] at heq
        rw [Prod.mk.injEq] at heq
        exact heq.2
      · rw [if_neg hb] at heq
        have hge := cfdMonth_fst_ge rest (m + 1) (n2 - len)
        have hfst := congrArg Prod.fst heq
        dsimp at hfst
        omega
    · rw [if_neg ha] at heq
      by_cases hb : n2 < len
      · rw [if_pos hb] at heq
        have hge := cfdMonth_fst_ge rest (m + 1) (n1 - len)
        have hfst := congrArg Prod.fst heq
        dsimp at hfst
        omega
      · rw [if_neg hb] at heq
        have := ih (m + 1) (n1 - len) (n2 - len) (by omega) (by omega) heq
        omega

theorem monthLengths_sum (y : Nat) : (monthLengths y).sum = daysInYear y := by
  unfold monthLengths daysInYear
  cases h : isLeap y <;> simp [h]

theorem monthLengths_le (y : Nat) : ∀ l ∈ monthLengths y, l ≤ 31 := by
  unfold monthLengths
  cases h : isLeap y <;> simp [h]

theorem cfdMonth_bounds : ∀ (ms : List Nat) (m n : Nat), n < ms.sum →
    (∀ l ∈ ms, l ≤ 31) →
    (cfdMonth ms m n).1 < m + ms.length ∧ (cfdMonth ms m n).2 < 31 := by
  intro ms
  induction ms with
  | nil =>
    intro m n h _
    simp at h
  | cons len rest ih =>
    intro m n h hle
    rw [List.sum_cons] at h
    rw [cfdMonth_cons]
    have h31 := hle len (List.mem_cons_self _ _)
    by_cases ha : n < len
    · rw [if_pos ha]
      refine ⟨?_, by omega⟩
      rw [List.length_cons]
      omega
    · rw [if_neg ha]
      have := ih (m + 1) (n - len) (by omega) (fun l hl => hle l (List.mem_cons_of_mem _ hl))
      rw [List.length_cons]
      omega

theorem padNats_succ_eq (w n : Nat) :
    padNats (w + 1) n = (n / 10 ^ w % 10) :: padNats w (n % 10 ^ w) := rfl

theorem padNats_inj : ∀ (w n1 n2 : Nat), n1 < 10 ^ w → n2 < 10 ^ w →
    padNats w n1 = padNats w n2 → n1 = n2 := by
  intro w
  induction w with
  | zero =>
    intro n1 n2 h1 h2 _
    rw [pow_zero] at h1 h2
    omega
  | succ w ih =>
    intro n1 n2 h1 h2 heq
    rw [padNats_succ_eq, padNats_succ_eq, List.cons.injEq] at heq
    obtain ⟨hd, htl⟩ := heq
    have hp : 0 < 10 ^ w := pow_pos (by omega) w
    have e1 : n1 % 10 ^ w = n2 % 10 ^ w :=
      ih _ _ (Nat.mod_lt _ hp) (Nat.mod_lt _ hp) htl
    have hb1 : n1 / 10 ^ w < 10 := by
      apply Nat.div_lt_of_lt_mul
      rw [← pow_succ]
      exact h1
    have hb2 : n2 / 10 ^ w < 10 := by
      apply Nat.div_lt_of_lt_mul
      rw [← pow_succ]
      exact h2
    rw [Nat.mod_eq_of_lt hb1, Nat.mod_eq_of_lt hb2] at hd
    have q1 := Nat.div_add_mod n1 (10 ^ w)
    have q2 := Nat.div_add_mod n2 (10 ^ w)
    rw [← q1, ← q2, hd, e1]

theorem padNats_lt10 : ∀ (w n : Nat), ∀ x ∈ padNats w n, x < 10 := by
  intro w
  induction w with
  | zero =>
    intro n x hx
    simp [padNats] at hx
  | succ w ih =>
    intro n x hx
    rw [padNats_succ_eq, List.mem_cons] at hx
    rcases hx with hx | hx
    · subst hx
      exact Nat.mod_lt _ (by omega)
    · exact ih _ x hx

theorem digitChar_inj_below10 :
    ∀ a, a < 10 → ∀ b, b < 10 → Nat.digitChar a = Nat.digitChar b → a = b := by decide

theorem map_digitChar_inj : ∀ (l1 l2 : List Nat), (∀ x ∈ l1, x < 10) →
    (∀ x ∈ l2, x < 10) → l1.map Nat.digitChar = l2.map Nat.digitChar → l1 = l2 := by
  intro l1
  induction l1 with
  | nil =>
    intro l2 _ _ heq
    cases l2 with
    | nil => rfl
    | cons b t => simp at heq
  | cons a t1 ih =>
    intro l2 h1 h2 heq
    cases l2 with
    | nil => simp at heq
    | cons b t2 =>
      rw [List.map_cons, List.map_cons, List.cons.injEq] at heq
      obtain ⟨hd, htl⟩ := heq
      have ha := h1 a (List.mem_cons_self _ _)
      have hb := h2 b (List.mem_cons_self _ _)
      rw [List.cons.injEq]
      exact ⟨digitChar_inj_below10 a ha b hb hd,
        ih t2 (fun x hx => h1 x (List.mem_cons_of_mem _ hx))
          (fun x hx => h2 x (List.mem_cons_of_mem _ hx)) htl⟩

theorem padChars_inj {w n1 n2 : Nat} (h1 : n1 < 10 ^ w) (h2 : n2 < 10 ^ w)
    (heq : padChars w n1 = padChars w n2) : n1 = n2 := by
  unfold padChars at heq
  exact padNats_inj w n1 n2 h1 h2
    (map_digitChar_inj _ _ (padNats_lt10 w n1) (padNats_lt10 w n2) heq)

theorem padNats_length : ∀ (w n : Nat), (padNats w n).length = w := by
  intro w
  induction w with
  | zero =>
    intro n
    rfl
  | succ w ih =>
    intro n
    rw [padNats_succ_eq, List.length_cons, ih]

theorem padChars_length (w n : Nat) : (padChars w n).length = w := by
  unfold padChars
  rw [List.length_map, padNats_length]

theorem civilFromDays_bounds (n : Nat) :
    (civilFromDays n).2.1 < 100 ∧ (civilFromDays n).2.2 < 100 := by
  have hdoy := cfdYear_snd_lt n 1
  have hsum := monthLengths_sum (cfdYear 1 n).1
  have hb := cfdMonth_bounds (monthLengths (cfdYear 1 n).1) 1 (cfdYear 1 n).2
    (by rw [hsum]; exact hdoy) (monthLengths_le _)
  have hlen : (monthLengths (cfdYear 1 n).1).length = 12 := rfl
  unfold civilFromDays
  dsimp only
  rw [hlen] at hb
  omega

theorem civilFromDays_inj {a b : Nat} (h : civilFromDays a = civilFromDays b) :
    a = b := by
  unfold civilFromDays at h
  rw [Prod.mk.injEq, Prod.mk.injEq] at h
  obtain ⟨hy, hm, hd⟩ := h
  have hdoyA := cfdYear_snd_lt a 1
  have hdoyB := cfdYear_snd_lt b 1
  rw [← hy] at hm hd
  have hmd : cfdMonth (monthLengths (cfdYear 1 a).1) 1 (cfdYear 1 a).2
      = cfdMonth (monthLengths (cfdYear 1 a).1) 1 (cfdYear 1 b).2 := by
    apply Prod.ext hm
    omega
  have hdoyeq : (cfdYear 1 a).2 = (cfdYear 1 b).2 := by
    apply cfdMonth_inj (monthLengths (cfdYear 1 a).1) 1
    · rw [monthLengths_sum]
      exact hdoyA
    · rw [monthLengths_sum, hy]
      exact hdoyB
    · exact hmd
  exact cfdYear_inj a b 1 (Prod.ext hy hdoyeq)

theorem fmtYMD_length (n : Nat) : (fmtYMD n).length = 8 := by
  unfold fmtYMD
  rw [List.length_append, List.length_append,
    padChars_length, padChars_length, padChars_length]

theorem fmtYMD_inj {a b : Nat} (ha : (civilFromDays a).1 < 10000)
    (hb : (civilFromDays b).1 < 10000) (heq : fmtYMD a = fmtYMD b) : a = b := by
  unfold fmtYMD at heq
  rw [List.append_assoc, List.append_assoc] at heq
  obtain ⟨hy, hrest⟩ :=
    List.append_inj heq (by rw [padChars_length, padChars_length])
  obtain ⟨hm, hd⟩ :=
    List.append_inj hrest (by rw [padChars_length, padChars_length])
  have hmb := civilFromDays_bounds a
  have hmb' := civilFromDays_bounds b
  have h4 : (10000 : Nat) = 10 ^ 4 := by norm_num
  have h2 : (100 : Nat) = 10 ^ 2 := by norm_num
  apply civilFromDays_inj
  apply Prod.ext
  · exact padChars_inj (h4 ▸ ha) (h4 ▸ hb) hy
  · apply Prod.ext
    · exact padChars_inj (h2 ▸ hmb.1) (h2 ▸ hmb'.1) hm
    · exact padChars_inj (h2 ▸ hmb.2) (h2 ▸ hmb'.2) hd

/-- Claim C9 (confirmed): the directory addressor is deterministic —
identical inputs always yield the identical path — and, for the built-in
daily template over day offsets and the built-in hourly template over hour
offsets, injective: distinct offsets from one anchor time address distinct
paths, for addressed datetimes that are valid (nonnegative, with year below
10000, the range Python datetimes can represent). -/
theorem c9_addressor_deterministic_injective :
    (∀ (env : Env) (t1 t2 : Int) (b1 b2 f1 f2 : String),
       t1 = t2 → b1 = b2 → f1 = f2 →
       getBackupDirPath env t1 b1 f1 = getBackupDirPath env t2 b2 f2)
    ∧ (∀ (host : List Char) (base : String) (t i j : Int),
       0 ≤ t - 24 * i → 0 ≤ t - 24 * j →
       (civilFromDays ((t - 24 * i).toNat / 24)).1 < 10000 →
       (civilFromDays ((t - 24 * j).toNat / 24)).1 < 10000 →
       getBackupDirPath (envBuiltin host) (t - 24 * i) base DEFAULT_DIR_FORMAT
         = getBackupDirPath (envBuiltin host) (t - 24 * j) base DEFAULT_DIR_FORMAT →
       i = j)
    ∧ (∀ (host : List Char) (base : String) (t i j : Int),
       0 ≤ t - i → 0 ≤ t - j →
       (civilFromDays ((t - i).toNat / 24)).1 < 10000 →
       (civilFromDays ((t - j).toNat / 24)).1 < 10000 →
       getBackupDirPath (envBuiltin host) (t - i) base DEFAULT_DIR_FORMAT_HOURLY
         = getBackupDirPath (envBuiltin host) (t - j) base DEFAULT_DIR_FORMAT_HOURLY →
       i = j) := by
  refine ⟨?_, ?_, ?_⟩
  · intro env t1 t2 b1 b2 f1 f2 h1 h2 h3
    subst h1
    subst h2
    subst h3
    rfl
  · intro host base t i j hi hj hyi hyj hpath
    have hsd : ∀ t' : Int, strftimeBuiltin host DEFAULT_DIR_FORMAT t'
        = String.mk (nameDaily host t') := by
      intro t'
      unfold strftimeBuiltin
      rw [if_pos rfl]
    unfold getBackupDirPath envBuiltin at hpath
    dsimp only at hpath
    rw [hsd] at hpath
    have hdata := congrArg String.data hpath
    rw [String.data_append, String.data_append] at hdata
    have hname : nameDaily host (t - 24 * i) = nameDaily host (t - 24 * j) :=
      List.append_cancel_left hdata
    unfold nameDaily at hname
    have h1 := List.append_cancel_left hname
    rw [List.cons.injEq] at h1
    have hday := fmtYMD_inj hyi hyj h1.2
    have hti : ((t - 24 * i).toNat : Int) = t - 24 * i := Int.toNat_of_nonneg hi
    have htj : ((t - 24 * j).toNat : Int) = t - 24 * j := Int.toNat_of_nonneg hj
    omega
  · intro host base t i j hi hj hyi hyj hpath
    have hsh : ∀ t' : Int, strftimeBuiltin host DEFAULT_DIR_FORMAT_HOURLY t'
        = String.mk (nameHourly host t') := by
      intro t'
      unfold strftimeBuiltin
      rw [if_neg (by decide), if_pos rfl]
    unfold getBackupDirPath envBuiltin at hpath
    dsimp only at hpath
    rw [hsh] at hpath
    have hdata := congrArg String.data hpath
    rw [String.data_append, String.data_append] at hdata
    have hname : nameHourly host (t - i) = nameHourly host (t - j) :=
      List.append_cancel_left hdata
    unfold nameHourly at hname
    have h1 := List.append_cancel_left hname
    rw [List.cons.injEq] at h1
    obtain ⟨hfh, hrest⟩ :=
      List.append_inj h1.2 (by rw [fmtYMD_length, fmtYMD_length])
    rw [List.cons.injEq] at hrest
    have hday := fmtYMD_inj hyi hyj hfh
    have h100 : (100 : Nat) = 10 ^ 2 := by norm_num
    have hhour : (t - i).toNat % 24 = (t - j).toNat % 24 :=
      padChars_inj (h100 ▸ (by omega : (t - i).toNat % 24 < 100))
        (h100 ▸ (by omega : (t - j).toNat % 24 < 100)) hrest.2
    have hti : ((t - i).toNat : Int) = t - i := Int.toNat_of_nonneg hi
    have htj : ((t - j).toNat : Int) = t - j := Int.toNat_of_nonneg hj
    omega

/-- Witness for Claim C9: a valid concrete anchor time (hour 2400, i.e. day
100 of year 1) and the daily-template injectivity applied at offset 2. -/
theorem c9_addressor_witness :
    ((0 : Int) ≤ 2400 - 24 * 2
     ∧ (civilFromDays (((2400 : Int) - 24 * 2).toNat / 24)).1 < 10000)
    ∧ (2 : Int) = 2 := by
  refine ⟨⟨by norm_num, by decide⟩, ?_⟩
  exact c9_addressor_deterministic_injective.2.1 [Char.ofNat 104] "b" 2400 2 2
    (by norm_num) (by norm_num) (by decide) (by decide) rfl

/-- Claim C4, counterexample: with every ancestor traversable but the
immediate parent of the failing path owned by another user and lacking
S_IWUSR, the write-permission step is NOT skipped: the unguarded os.chmod of
src/do_backup.py:227-228 is attempted, fails for the non-owner, that
permission error propagates, and the delete is never retried — the claim
demands the step be skipped and the delete retried exactly once after
repair. -/
theorem c4_parent_write_counterexample :
    (delRw 1000 fsC ["home", "u", "x"] true).retries = 0
    ∧ (delRw 1000 fsC ["home", "u", "x"] true).err = some DelErr.chmodDenied
    ∧ (delRw 1000 fsC ["home", "u", "x"] true).fs ["home", "u"]
        = fsC ["home", "u"] := by
  refine ⟨?_, ?_, ?_⟩ <;> rfl

/-- Claim C4, amended: during permission repair, (A) a directory owned by a
different user never has its mode bits changed; (B) at the first
non-traversable foreign-owned ancestor, the original error is re-raised with
no directory at or after that point (nor the path itself) modified and no
retry; (C) — the amended clause — the write-bit grant on the immediate
parent is attempted regardless of ownership: when the parent is foreign and
lacks S_IWUSR, the chmod itself fails, that error propagates unrepaired with
nothing modified and the delete is NOT retried; (D) when every walked
directory passes its checks, the delete is retried exactly once; and (E) the
delete is never retried more than once. -/
theorem c4_permission_repair_amended :
    (∀ (euid : Nat) (fs : PFS) (path : List String) (b : Bool)
       (q : List String) (st : DirStat),
       fs q = some st → st.uid ≠ euid → (delRw euid fs path b).fs q = some st)
    ∧ (∀ (euid : Nat) (fs : PFS) (path : List String)
         (L1 : List (List String)) (bad : List String) (L2 : List (List String)),
       ancestorChain path.dropLast = L1 ++ bad :: L2 →
       (∀ q ∈ L1, accOk euid fs q = true) →
       badForeign euid fs bad = true →
       (delRw euid fs path true).err = some DelErr.orig
       ∧ (delRw euid fs path true).retries = 0
       ∧ (delRw euid fs path true).fs bad = fs bad
       ∧ (∀ q ∈ L2, (delRw euid fs path true).fs q = fs q)
       ∧ (delRw euid fs path true).fs path = fs path)
    ∧ (∀ (euid : Nat) (fs : PFS) (path : List String) (st : DirStat),
       path.dropLast ≠ [] →
       (∀ q ∈ ancestorChain path.dropLast.dropLast, accXOk euid fs q = true) →
       fs path.dropLast = some st →
       accessX euid st = true → st.uid ≠ euid → st.iwusr = false →
       delRw euid fs path true = ⟨fs, 0, some DelErr.chmodDenied⟩)
    ∧ (∀ (euid : Nat) (fs : PFS) (path : List String),
       (∀ q ∈ ancestorChain path.dropLast, walkOk euid path.dropLast fs q = true) →
       (delRw euid fs path true).retries = 1
       ∧ ((delRw euid fs path true).err = none
          ∨ (delRw euid fs path true).err = some DelErr.retryFailed))
    ∧ (∀ (euid : Nat) (fs : PFS) (path : List String) (b : Bool),
       (delRw euid fs path b).retries ≤ 1) := by
  refine ⟨?_, ?_, ?_, ?_, ?_⟩
  · -- (A) foreign-owned directories are never modified
    intro euid fs path b q st hq ho
    unfold delRw
    split
    · exact hq
    · have hwq : (delRwWalk euid path.dropLast fs).1 q = some st := by
        unfold delRwWalk
        exact walk_foreign euid path.dropLast _ (fs, none) q st hq ho
      split
      · rename_i fs1 e heq
        rw [heq] at hwq
        exact hwq
      · rename_i fs1 heq
        rw [heq] at hwq
        split
        · exact hwq
        · exact hwq
  · -- (B) first blocked foreign ancestor
    intro euid fs path L1 bad L2 hsplit hL1 hbad
    have hchne : ancestorChain path.dropLast ≠ [] := by
      rw [hsplit]
      simp
    have hpne : path.dropLast ≠ [] := by
      intro hcontra
      exact hchne (by rw [hcontra, ancestorChain_nil])
    have hpathne : path ≠ [] := by
      intro hcontra
      subst hcontra
      exact hpne rfl
    have hch := ancestorChain_append hpne
    have hL1init : ∀ q ∈ L1, q ∈ ancestorChain path.dropLast.dropLast := by
      intro q hq
      have hlen1 : (ancestorChain path.dropLast).length
          = L1.length + (bad :: L2).length := by
        rw [hsplit, List.length_append]
      have hlen2 : (ancestorChain path.dropLast).length
          = (ancestorChain path.dropLast.dropLast).length + 1 := by
        rw [hch, List.length_append]
        simp
      simp only [List.length_cons] at hlen1
      have h1 : L1.length ≤ (ancestorChain path.dropLast.dropLast).length := by omega
      have h2 : L1 = (ancestorChain path.dropLast.dropLast).take L1.length := by
        calc L1 = (L1 ++ bad :: L2).take L1.length := (List.take_left _ _).symm
        _ = (ancestorChain path.dropLast).take L1.length := by rw [hsplit]
        _ = (ancestorChain path.dropLast.dropLast ++ [path.dropLast]).take L1.length := by
            rw [hch]
        _ = (ancestorChain path.dropLast.dropLast).take L1.length :=
            List.take_append_of_le_length h1
      rw [h2] at hq
      exact List.take_subset _ _ hq
    have hL1ne : ∀ q ∈ L1, q ≠ path.dropLast := by
      intro q hq hcontra
      have hle := mem_ancestorChain_le (hL1init q hq)
      have hdl : path.dropLast.dropLast.length = path.dropLast.length - 1 :=
        List.length_dropLast _
      have hpos : 0 < path.dropLast.length := List.length_pos.mpr hpne
      subst hcontra
      omega
    have hnodup := ancestorChain_nodup path.dropLast.length path.dropLast rfl
    rw [hsplit, List.nodup_append] at hnodup
    obtain ⟨hndL1, -, hdisj⟩ := hnodup
    have hbadL1 : bad ∉ L1 := fun hmem => hdisj hmem (List.mem_cons_self _ _)
    have hL2L1 : ∀ q ∈ L2, q ∉ L1 :=
      fun q hq hmem => hdisj hmem (List.mem_cons_of_mem _ hq)
    obtain ⟨hw2, hw1⟩ := walk_ok euid path.dropLast L1 fs hndL1
      (fun q hq => ⟨hL1ne q hq, hL1 q hq⟩)
    have hbadfs : (L1.foldl (walkStep euid path.dropLast) (fs, none)).1 bad = fs bad :=
      hw1 bad hbadL1
    unfold badForeign at hbad
    cases hfb : fs bad with
    | none =>
      rw [hfb] at hbad
      simp at hbad
    | some st =>
      rw [hfb] at hbad
      dsimp only at hbad
      rw [Bool.and_eq_true] at hbad
      have hbx : accessX euid st = false := by
        have h := hbad.1
        simpa using h
      have hbo : ¬ euid = st.uid := by
        have h := hbad.2
        simp at h
        omega
      have hstep : walkStep euid path.dropLast
          (L1.foldl (walkStep euid path.dropLast) (fs, none)) bad
          = ((L1.foldl (walkStep euid path.dropLast) (fs, none)).1,
             some DelErr.orig) := by
        rw [walkStep_none hw2]
        exact processDir_foreignX (by rw [hbadfs, hfb]) hbx hbo
      have hwalkresult : delRwWalk euid path.dropLast fs
          = ((L1.foldl (walkStep euid path.dropLast) (fs, none)).1,
             some DelErr.orig) := by
        unfold delRwWalk
        rw [hsplit, List.foldl_append, List.foldl_cons, hstep, walk_absorb]
      have hdel : delRw euid fs path true
          = ⟨(L1.foldl (walkStep euid path.dropLast) (fs, none)).1, 0,
             some DelErr.orig⟩ := by
        unfold delRw
        rw [if_neg (by simp), hwalkresult]
      rw [hdel]
      refine ⟨rfl, rfl, hbadfs.trans hfb, ?_, ?_⟩
      · intro q hq
        exact hw1 q (hL2L1 q hq)
      · refine hw1 path ?_
        intro hmem
        have hle := mem_ancestorChain_le (hL1init path hmem)
        have hdl2 : path.dropLast.length = path.length - 1 := List.length_dropLast _
        have hdl3 : path.dropLast.dropLast.length = path.dropLast.length - 1 :=
          List.length_dropLast _
        have hpos : 0 < path.length := List.length_pos.mpr hpathne
        have hpos2 : 0 < path.dropLast.length := List.length_pos.mpr hpne
        omega
  · -- (C) the unguarded parent write-bit chmod fails for a foreign parent
    intro euid fs path st hpne hacc hfp hx ho hw
    have hch := ancestorChain_append hpne
    have hinit : ∀ q ∈ ancestorChain path.dropLast.dropLast,
        q ≠ path.dropLast ∧ accXOk euid fs q = true := by
      intro q hq
      refine ⟨?_, hacc q hq⟩
      intro hcontra
      have hle := mem_ancestorChain_le hq
      have hdl : path.dropLast.dropLast.length = path.dropLast.length - 1 :=
        List.length_dropLast _
      have hpos : 0 < path.dropLast.length := List.length_pos.mpr hpne
      subst hcontra
      omega
    have hwalk1 := walk_accessible euid path.dropLast
      (ancestorChain path.dropLast.dropLast) fs hinit
    have hstep : walkStep euid path.dropLast (fs, none) path.dropLast
        = (fs, some DelErr.chmodDenied) := by
      show processDir euid path.dropLast fs path.dropLast = _
      exact processDir_parent_denied hfp hx hw (fun hcontra => ho hcontra.symm)
    have hwalkresult : delRwWalk euid path.dropLast fs
        = (fs, some DelErr.chmodDenied) := by
      unfold delRwWalk
      rw [hch, List.foldl_append, hwalk1]
      rw [show ([path.dropLast].foldl (walkStep euid path.dropLast) (fs, none))
          = walkStep euid path.dropLast (fs, none) path.dropLast from rfl]
      exact hstep
    unfold delRw
    rw [if_neg (by simp), hwalkresult]
  · -- (D) a fully passing walk retries the delete exactly once
    intro euid fs path hok
    by_cases hpne : path.dropLast = []
    · have hwalkresult : delRwWalk euid path.dropLast fs = (fs, none) := by
        unfold delRwWalk
        rw [hpne, ancestorChain_nil]
        rfl
      unfold delRw
      rw [if_neg (by simp), hwalkresult]
      dsimp only
      split
      · exact ⟨rfl, Or.inl rfl⟩
      · exact ⟨rfl, Or.inr rfl⟩
    · have hch := ancestorChain_append hpne
      have hnodup := ancestorChain_nodup path.dropLast.length path.dropLast rfl
      rw [hch, List.nodup_append] at hnodup
      obtain ⟨hndinit, -, hdisj⟩ := hnodup
      have hinitcond : ∀ q ∈ ancestorChain path.dropLast.dropLast,
          q ≠ path.dropLast ∧ accOk euid fs q = true := by
        intro q hq
        constructor
        · intro hcontra
          exact hdisj hq (hcontra ▸ List.mem_singleton_self _)
        · have hq' : q ∈ ancestorChain path.dropLast := by
            rw [hch]
            exact List.mem_append_left _ hq
          have hwq := hok q hq'
          unfold walkOk at hwq
          unfold accOk
          cases hfq : fs q with
          | none =>
            rw [hfq] at hwq
            simp at hwq
          | some stq =>
            rw [hfq] at hwq
            dsimp only at hwq
            rw [Bool.and_eq_true] at hwq
            exact hwq.1
      obtain ⟨hw2, hw1⟩ := walk_ok euid path.dropLast
        (ancestorChain path.dropLast.dropLast) fs hndinit hinitcond
      have hpnotin : path.dropLast ∉ ancestorChain path.dropLast.dropLast := by
        intro hmem
        exact hdisj hmem (List.mem_singleton_self _)
      have hfsparent : (((ancestorChain path.dropLast.dropLast).foldl
          (walkStep euid path.dropLast) (fs, none)).1) path.dropLast
            = fs path.dropLast := hw1 _ hpnotin
      have hpok := hok path.dropLast
        (by rw [hch]; exact List.mem_append_right _ (List.mem_singleton_self _))
      unfold walkOk at hpok
      cases hfp : fs path.dropLast with
      | none =>
        rw [hfp] at hpok
        simp at hpok
      | some st =>
        rw [hfp] at hpok
        dsimp only at hpok
        rw [if_pos rfl, Bool.and_eq_true] at hpok
        have hfc2 : (((ancestorChain path.dropLast.dropLast).foldl
            (walkStep euid path.dropLast) (fs, none)).1) path.dropLast
              = some st := by
          rw [hfsparent]
          exact hfp
        have hparentstep : (processDir euid path.dropLast
            (((ancestorChain path.dropLast.dropLast).foldl
              (walkStep euid path.dropLast) (fs, none)).1) path.dropLast).2
              = none := processDir_parent_ok hfc2 hpok.1 hpok.2
        have hfold1 : (ancestorChain path.dropLast.dropLast).foldl
            (walkStep euid path.dropLast) (fs, none)
            = (((ancestorChain path.dropLast.dropLast).foldl
                (walkStep euid path.dropLast) (fs, none)).1, none) := by
          conv_lhs => rw [show (ancestorChain path.dropLast.dropLast).foldl
            (walkStep euid path.dropLast) (fs, none)
            = (((ancestorChain path.dropLast.dropLast).foldl
                (walkStep euid path.dropLast) (fs, none)).1,
               ((ancestorChain path.dropLast.dropLast).foldl
                (walkStep euid path.dropLast) (fs, none)).2) from rfl]
          rw [hw2]
        have hwalk2 : (delRwWalk euid path.dropLast fs).2 = none := by
          unfold delRwWalk
          rw [hch, List.foldl_append, hfold1]
          rw [show ([path.dropLast].foldl (walkStep euid path.dropLast)
              ((((ancestorChain path.dropLast.dropLast).foldl
                (walkStep euid path.dropLast) (fs, none)).1), none))
              = walkStep euid path.dropLast
                ((((ancestorChain path.dropLast.dropLast).foldl
                  (walkStep euid path.dropLast) (fs, none)).1), none)
                path.dropLast from rfl]
          exact hparentstep
        have hwpair : delRwWalk euid path.dropLast fs
            = ((delRwWalk euid path.dropLast fs).1, none) := by
          conv_lhs => rw [show delRwWalk euid path.dropLast fs
            = ((delRwWalk euid path.dropLast fs).1,
               (delRwWalk euid path.dropLast fs).2) from rfl]
          rw [hwalk2]
        unfold delRw
        rw [if_neg (by simp), hwpair]
        dsimp only
        split
        · exact ⟨rfl, Or.inl rfl⟩
        · exact ⟨rfl, Or.inr rfl⟩
  · -- (E) at most one retry, always
    intro euid fs path b
    unfold delRw
    split
    · simp
    · split
      · simp
      · split
        · simp
        · simp

/-- Witness for Claim C4 (amended): with every directory owned by the caller
and fully accessible, the repair walk completes and the delete is retried
exactly once. -/
theorem c4_permission_repair_amended_witness :
    (∀ q ∈ ancestorChain (["home", "u", "x"] : List String).dropLast,
       walkOk 1000 (["home", "u", "x"] : List String).dropLast fsD q = true)
    ∧ (delRw 1000 fsD ["home", "u", "x"] true).retries = 1 :=
  ⟨by decide,
   (c4_permission_repair_amended.2.2.2.1 1000 fsD ["home", "u", "x"] (by decide)).1⟩

/-- Claim C6 (confirmed): the link-chain resolver, as wired with the window
[1, threshold], returns the address of the first (smallest) offset whose path
is an existing directory, scanning in increasing order, and none when no
offset in the window addresses an existing directory. -/
theorem c6_find_link_dir_first (env : Env) (today : Int) (b f : String)
    (t : Int) (hl : Bool) (fs : FSm) :
    (∀ i0 : Int, 1 ≤ i0 → i0 ≤ t →
       pathIsDir fs (sweepAddr env today b f hl i0) = true →
       (∀ j : Int, 1 ≤ j → j < i0 →
         pathIsDir fs (sweepAddr env today b f hl j) = false) →
       findLinkDir env today b f 1 t hl fs = some (sweepAddr env today b f hl i0))
    ∧ ((∀ i : Int, 1 ≤ i → i ≤ t →
         pathIsDir fs (sweepAddr env today b f hl i) = false) →
       findLinkDir env today b f 1 t hl fs = none) := by
  constructor
  · intro i0 hi1 hi2 hdir hfirst
    apply findSome?_pyRange_first _ 1 (t + 1) i0 _ hi1 (by omega)
    · show (if pathIsDir fs (sweepAddr env today b f hl i0) = true
          then some (sweepAddr env today b f hl i0) else none) = _
      rw [if_pos hdir]
    · intro j hj1 hj2
      show (if pathIsDir fs (sweepAddr env today b f hl j) = true
          then some (sweepAddr env today b f hl j) else none) = none
      rw [if_neg]
      rw [hfirst j hj1 hj2]
      simp
  · intro hnone
    apply findSome?_pyRange_none
    intro i hi1 hi2
    show (if pathIsDir fs (sweepAddr env today b f hl i) = true
        then some (sweepAddr env today b f hl i) else none) = none
    rw [if_neg]
    rw [hnone i hi1 (by omega)]
    simp

/-- Witness for Claim C6 at the spec's example: threshold 5 with snapshots at
offsets 2 and 4 resolves to the address of offset 2, the nearest. -/
theorem c6_find_link_dir_first_witness :
    ((1 : Int) ≤ 2 ∧ (2 : Int) ≤ 5) ∧
    findLinkDir envW 0 "b" "f" 1 5 true fsW24
      = some (sweepAddr envW 0 "b" "f" true 2) := by
  refine ⟨⟨by norm_num, by norm_num⟩, ?_⟩
  apply (c6_find_link_dir_first envW 0 "b" "f" 5 true fsW24).1 2
    (by norm_num) (by norm_num) (by decide)
  intro j hj1 hj2
  have hj : j = 1 := by omega
  subst hj
  decide

/-- Claim C5 (confirmed): with threshold t > 0 the retention sweep visits
exactly the integer offsets in [t+1, 100] (100 is the search-horizon
constant), and per offset it skips absent paths, warn-skips existing
non-directories, and removes directories; provided distinct offsets address
distinct paths, the address of any offset at most t keeps its entry
untouched; and with a nonpositive threshold the orchestrator runs no sweep
step at all. -/
theorem c5_retention_sweep :
    (∀ (env : Env) (today : Int) (b f : String) (t : Int) (hl : Bool) (fs : FSm),
      0 < t →
      (∀ i ∈ pyRange 0 101, ∀ j ∈ pyRange 0 101,
         sweepAddr env today b f hl i = sweepAddr env today b f hl j → i = j) →
      ((removeOldBackupsIfExist env today b f (t + 1) 100 hl fs).2
          = (pyRange (t + 1) 101).map
              (fun i => sweepEventAt fs (sweepAddr env today b f hl i)))
      ∧ (∀ q : String, (removeOldBackupsIfExist env today b f (t + 1) 100 hl fs).1 q
          = if (((pyRange (t + 1) 101).any fun i => sweepAddr env today b f hl i == q)
               && pathIsDir fs q) = true then none else fs q)
      ∧ (∀ j : Int, 0 ≤ j → j ≤ t →
          (removeOldBackupsIfExist env today b f (t + 1) 100 hl fs).1
              (sweepAddr env today b f hl j)
            = fs (sweepAddr env today b f hl j)))
    ∧ (∀ (env : Env) (today : Int) (g : Globals) (fs : FSm) (a : Args),
        a.removal_threshold ≤ 0 → NoSweepEvents (mainInter env today g fs a).trace) := by
  constructor
  · intro env today b f t hl fs ht hinj
    have hinjL : ∀ i ∈ pyRange (t + 1) 101, ∀ j ∈ pyRange (t + 1) 101,
        sweepAddr env today b f hl i = sweepAddr env today b f hl j → i = j := by
      intro i hi j hj
      rw [mem_pyRange] at hi hj
      exact hinj i (mem_pyRange.mpr (by omega)) j (mem_pyRange.mpr (by omega))
    have hchar := sweep_foldl_char env today b f hl (pyRange (t + 1) 101) fs []
      (pyRange_nodup _ _) hinjL
    have hrm : removeOldBackupsIfExist env today b f (t + 1) 100 hl fs
        = (pyRange (t + 1) 101).foldl (removeOldStep env today b f hl) (fs, []) := by
      unfold removeOldBackupsIfExist
      norm_num
    refine ⟨?_, ?_, ?_⟩
    · rw [hrm, hchar.1]
      simp
    · intro q
      rw [hrm, hchar.2 q]
    · intro j hj0 hjt
      rw [hrm, hchar.2 (sweepAddr env today b f hl j)]
      have hany : (((pyRange (t + 1) 101).any
          fun i => sweepAddr env today b f hl i == sweepAddr env today b f hl j)
            = false) := by
        rw [← Bool.not_eq_true, List.any_eq_true]
        rintro ⟨i, hi, hbeq⟩
        rw [mem_pyRange] at hi
        rw [beq_iff_eq] at hbeq
        have hij := hinj i (mem_pyRange.mpr (by omega)) j (mem_pyRange.mpr (by omega)) hbeq
        omega
      rw [hany]
      simp
  · intro env today g fs a ht
    unfold NoSweepEvents
    intro p
    refine ⟨?_, ?_, ?_⟩ <;> intro hmem <;>
      rcases mainInter_nonpos_trace env today g fs a ht _ hmem with
        ⟨q, h⟩ | ⟨q, h⟩ | ⟨-, c, h, -⟩ <;>
      simp at h

/-- Witness for Claim C5: threshold 5 with the length-coded naming
environment; the address of offset 3 keeps its entry untouched by the
sweep. -/
theorem c5_retention_sweep_witness :
    (0 : Int) < 5 ∧
    (removeOldBackupsIfExist envR 200 "b" "f" (5 + 1) 100 true fsR).1
        (sweepAddr envR 200 "b" "f" true 3)
      = fsR (sweepAddr envR 200 "b" "f" true 3) := by
  refine ⟨by norm_num, ?_⟩
  refine (c5_retention_sweep.1 envR 200 "b" "f" 5 true fsR (by norm_num) ?_).2.2 3
    (by norm_num) (by norm_num)
  intro i hi j hj hadd
  rw [mem_pyRange] at hi hj
  have hd := congrArg String.data hadd
  simp only [sweepAddr, getBackupDirPath, envR, thatdayOf, String.data_append] at hd
  simp at hd
  omega

/-- Claim C10 (confirmed): with removal_threshold ≤ 0 (and no forced full
backup) the link resolver scans the empty window [1, threshold] and returns
none, and every copy command the orchestrator spawns carries no link
source. -/
theorem c10_zero_threshold_disables_link :
    (∀ (env : Env) (today : Int) (b f : String) (t : Int) (hl : Bool) (fs : FSm),
       t ≤ 0 → findLinkDir env today b f 1 t hl fs = none)
    ∧ (∀ (env : Env) (today : Int) (g : Globals) (fs : FSm) (a : Args),
        a.removal_threshold ≤ 0 → a.force_full_backup = false →
        ∀ c : RsyncCmd, Event.spawn c ∈ (mainInter env today g fs a).trace →
          c.link = none) := by
  constructor
  · intro env today b f t hl fs ht
    exact findLinkDir_nonpos ht
  · intro env today g fs a ht _ c hc
    rcases mainInter_nonpos_trace env today g fs a ht _ hc with
      ⟨p, h⟩ | ⟨p, h⟩ | ⟨-, c', h, hl'⟩
    · exact absurd h (by simp)
    · exact absurd h (by simp)
    · rw [Event.spawn.injEq] at h
      rw [h]
      exact hl'

/- Every event the sweep loop appends is a remove / warn-skip / absent-skip
   event. -/
theorem sweep_trace_shape (env : Env) (today : Int) (b f : String) (hl : Bool)
    (L : List Int) :
    ∀ (fs : FSm) (tr : List Event),
      ∀ e ∈ (L.foldl (removeOldStep env today b f hl) (fs, tr)).2,
        e ∈ tr ∨ ∃ p, e = Event.removed p ∨ e = Event.warnedNotDir p ∨
          e = Event.skippedAbsent p := by
  induction L with
  | nil =>
    intro fs tr e he
    exact Or.inl he
  | cons i L ih =>
    intro fs tr e he
    rw [List.foldl_cons, removeOldStep_eq] at he
    rcases ih _ _ e he with hmem | hshape
    · rw [List.mem_append] at hmem
      rcases hmem with hmem | hmem
      · exact Or.inl hmem
      · rw [List.mem_singleton] at hmem
        subst hmem
        refine Or.inr ⟨sweepAddr env today b f hl i, ?_⟩
        unfold sweepEventAt
        split
        · split
          · exact Or.inl rfl
          · exact Or.inr (Or.inl rfl)
        · exact Or.inr (Or.inr rfl)
    · exact Or.inr hshape

/-- Claim C8, counterexample: after a run with a user-supplied exclusion, the
module-level default exclusion list is mutated in place (it is no longer the
built-in list), and a second run in the same process hands the copy runner a
list carrying the first run's entry as well, not defaults ++ its own user
entries. -/
theorem c8_defaults_mutation_counterexample :
    (mainInter envT 0 initGlobals fsBase argsEx1).globals.excludedDefault
        ≠ defaultExcludedDir
    ∧ (mainInter envT 0 (mainInter envT 0 initGlobals fsBase argsEx1).globals
        fsBase argsEx2).globals.excludedDefault
      ≠ defaultExcludedDir ++ ["/b"] := by
  constructor
  · decide
  · decide

/-- Claim C8, amended (the lists handed to the copy runner equal the CURRENT
module-level default lists followed by the user-supplied entries, and the
module-level default lists are mutated in place to exactly that value, so a
second invocation within the same process sees the first invocation's
user-supplied entries): for every run that passes destination validation,
the returned globals are the old globals extended by the user entries, and
every spawned copy command carries exactly those extended lists. -/
theorem c8_lists_accumulate_and_mutate (env : Env) (today : Int) (g : Globals)
    (fs : FSm) (a : Args) (fs1 : FSm) (tr1 : List Event)
    (hroot : a.base_dir ≠ "/")
    (hv : validateBaseDir env fs a = some (fs1, tr1)) :
    ((mainInter env today g fs a).globals.includedDefault
        = g.includedDefault ++ a.includeList
      ∧ (mainInter env today g fs a).globals.excludedDefault
        = g.excludedDefault ++ a.exclude)
    ∧ (∀ c : RsyncCmd, Event.spawn c ∈ (mainInter env today g fs a).trace →
        c.included = g.includedDefault ++ a.includeList
        ∧ c.excluded = g.excludedDefault ++ a.exclude) := by
  have hacc1 : (accumulateGlobals g a).includedDefault
      = g.includedDefault ++ a.includeList := by
    unfold accumulateGlobals
    by_cases h : a.includeList = [] <;> simp [h]
  have hacc2 : (accumulateGlobals g a).excludedDefault
      = g.excludedDefault ++ a.exclude := by
    unfold accumulateGlobals
    by_cases h : a.exclude = [] <;> simp [h]
  have hglob : (mainInter env today g fs a).globals = accumulateGlobals g a := by
    unfold mainInter
    rw [if_neg hroot, hv]
    dsimp only
    rw [if_neg hroot]
  constructor
  · rw [hglob]
    exact ⟨hacc1, hacc2⟩
  · intro c hc
    have htrace : (mainInter env today g fs a).trace
        = tr1 ++ (sweepPhase env today a fs1).2
          ++ (linkAndCopy env today (accumulateGlobals g a)
                (sweepPhase env today a fs1).1 a
                (getBackupDirPath env today a.base_dir (mainDirFormat a))).1 := by
      unfold mainInter
      rw [if_neg hroot, hv]
      dsimp only
      rw [if_neg hroot]
    rw [htrace, List.mem_append, List.mem_append] at hc
    rcases hc with (hc | hc) | hc
    · rcases validateBaseDir_trace hv with h | ⟨p, h⟩ | ⟨p, h⟩ <;> subst h <;> simp at hc
    · have := hc
      unfold sweepPhase at this
      by_cases hth : a.removal_threshold > 0
      · rw [if_pos hth] at this
        unfold removeOldBackupsIfExist at this
        rcases sweep_trace_shape env today a.base_dir (mainDirFormat a) a.hourly
            _ fs1 [] _ this with hmem | ⟨p, h⟩
        · simp at hmem
        · rcases h with h | h | h <;> simp at h
      · rw [if_neg hth] at this
        simp at this
    · obtain ⟨-, c', hc', -, hincl, hexcl⟩ := linkAndCopy_trace _ hc
      rw [Event.spawn.injEq] at hc'
      subst hc'
      rw [hincl, hexcl, hacc1, hacc2]
      exact ⟨rfl, rfl⟩

/-- Witness for Claim C8 (amended): a concrete run appends "/b" to the
module-level default exclusion list. -/
theorem c8_lists_accumulate_and_mutate_witness :
    ("/backup" ≠ "/" ∧ validateBaseDir envT fsBase argsEx2 = some (fsBase, []))
    ∧ (mainInter envT 0 initGlobals fsBase argsEx2).globals.excludedDefault
      = initGlobals.excludedDefault ++ argsEx2.exclude :=
  ⟨⟨by decide, rfl⟩,
   (c8_lists_accumulate_and_mutate envT 0 initGlobals fsBase argsEx2 fsBase []
     (by decide) rfl).1.2⟩

/-- Witness for Claim C10: an empty link window at threshold 0. -/
theorem c10_zero_threshold_disables_link_witness :
    (0 : Int) ≤ 0 ∧ findLinkDir envT 0 "b" "f" 1 0 false fsR = none :=
  ⟨by norm_num, c10_zero_threshold_disables_link.1 envT 0 "b" "f" 0 false fsR (by norm_num)⟩

/-- Claim C7 (code bug): a run that reaches the copy step never returns the
success/failure boolean at all: the TypeError raised at src/do_backup.py:334
propagates out of _main_inter, so the exit-code policy at lines 445-449 is
unreachable.  Concretely, a fully valid configuration yields a TypeError
instead of a boolean. -/
theorem c7_orchestrator_raises_instead_of_bool :
    (mainInter envT 0 initGlobals fsBase argsT).result
      = Except.error PyErr.typeError := by
  exact rfl

end DoBackup
